import Mathlib

/-!
# BMP_to_Gray: grayscale conversion, Sobel edge detection and BMP encoding

A shallow embedding of the two programs of the repository,
`Grey+MEM/Grey+MEM/Grey+MEM.cpp` and `Sobel_Filter/Sobel_Filter/Sobel_Filter.cpp`.

Conventions of the embedding.

* Bytes (`uint8_t`, `unsigned char`) are natural numbers; a buffer is a `List Nat`.
* `int` variables are mathematical integers (`Int`).
* A read or write outside a buffer is undefined behaviour in C; the embedding returns
  `none` for it, so a theorem `f ... = some r` also says that no such access happens.
* `double` arithmetic is IEEE 754 binary64 with round-to-nearest-even applied to every
  single operation (no fused multiply-add, no extended precision).
* A stream opened with mode `"w"` is a text stream of the C runtime the programs are written
  for (the Microsoft runtime, which provides `fopen_s`): every line feed written to it
  reaches the file as carriage return, line feed. Streams opened with `"wb"` are binary.
* Text printed on standard output is not modelled.
-/

/-! ## Binary64 arithmetic used by `rgbToGrayscale` -/

/-- Number of low-order bits of `n` that do not fit into a 53-bit significand: the number
of halvings needed to bring `n` below `2 ^ 53`. The first argument bounds the recursion
and is always instantiated with `n` itself, which is more than enough. -/
def excessBits : Nat → Nat → Nat
  | 0, _ => 0
  | fuel + 1, n => if n < 2 ^ 53 then 0 else excessBits fuel (n / 2) + 1

/-- Rounding of an exact value to binary64, round-to-nearest, ties-to-even. The natural
number `n` stands for the real number `n * 2 ^ (-56)`; every binary64 value that occurs
in `rgbToGrayscale` is such a multiple, and the result is again one. -/
def roundDouble (n : Nat) : Nat :=
  let shift := excessBits n n
  let q := n / 2 ^ shift
  let rem := n % 2 ^ shift
  if 2 ^ shift < 2 * rem ∨ (2 * rem = 2 ^ shift ∧ q % 2 = 1) then (q + 1) * 2 ^ shift
  else q * 2 ^ shift

/-- The binary64 value of the literal `0.299`, in units of `2 ^ (-56)`
(`0x1.322d0e5604189p-2`). -/
def lit0299 : Nat := 21545220617340452

/-- The binary64 value of the literal `0.587`, in units of `2 ^ (-56)`
(`0x1.2c8b439581062p-1`). -/
def lit0587 : Nat := 42297807700263696

/-- The binary64 value of the literal `0.114`, in units of `2 ^ (-56)`
(`0x1.d2f1a9fbe76c9p-4`). -/
def lit0114 : Nat := 8214565720323785

/-- The packed `RGB` struct of both programs: three bytes in the order blue, green, red. -/
structure RGB where
  blue : Nat
  green : Nat
  red : Nat
deriving DecidableEq, Repr

/-- The value of the `double` expression
`0.299 * pixel.red + 0.587 * pixel.green + 0.114 * pixel.blue` of `rgbToGrayscale`, in units
of `2 ^ (-56)`: the three products and the two additions (left to right, as C parses the
expression) are each rounded to binary64. The conversions of the bytes to `double` are
exact. -/
def lumaDouble (pixel : RGB) : Nat :=
  roundDouble (roundDouble (roundDouble (lit0299 * pixel.red)
    + roundDouble (lit0587 * pixel.green)) + roundDouble (lit0114 * pixel.blue))

/-- The function `rgbToGrayscale` (the same text in both programs):
`return (uint8_t)(0.299 * pixel.red + 0.587 * pixel.green + 0.114 * pixel.blue);`
The conversion to `uint8_t` discards the fractional part and keeps the low eight bits. -/
def rgbToGrayscale (pixel : RGB) : Nat :=
  (lumaDouble pixel / 2 ^ 56) % 256

/-- The exact weighted sum of the specification, scaled by 1000:
`1000 * (0.299 R + 0.587 G + 0.114 B)` over the real numbers. -/
def lumaTimes1000 (pixel : RGB) : Nat :=
  299 * pixel.red + 587 * pixel.green + 114 * pixel.blue

/-! ## Headers, validation and the pixel decoder (both programs) -/

/-- The packed struct `BMPFileHeader` (14 bytes). -/
structure BMPFileHeader where
  type : Nat
  size : Nat
  reserved1 : Nat
  reserved2 : Nat
  offset : Nat
deriving DecidableEq, Repr

/-- The packed struct `BMPInfoHeader` (40 bytes); `width`, `height` and the two resolutions
are signed. -/
structure BMPInfoHeader where
  size : Nat
  width : Int
  height : Int
  planes : Nat
  bitCount : Nat
  compression : Nat
  sizeImage : Nat
  xPelsPerMeter : Int
  yPelsPerMeter : Int
  clrUsed : Nat
  clrImportant : Nat
deriving DecidableEq, Repr

namespace GreyMEM

/-- The constant `IMAGE_WIDTH` of `Grey+MEM.cpp`. -/
def IMAGE_WIDTH : Nat := 630

/-- The constant `IMAGE_HEIGHT` of `Grey+MEM.cpp`. -/
def IMAGE_HEIGHT : Nat := 630

end GreyMEM

namespace SobelFilter

/-- The constant `IMAGE_WIDTH` of `Sobel_Filter.cpp`. -/
def IMAGE_WIDTH : Nat := 1247

/-- The constant `IMAGE_HEIGHT` of `Sobel_Filter.cpp`. -/
def IMAGE_HEIGHT : Nat := 720

end SobelFilter

/-- A little-endian unsigned field of `k` bytes starting at `pos` of a byte sequence. -/
def leField (bytes : List Nat) (pos k : Nat) : Nat :=
  ((List.range k).map (fun i => bytes.getD (pos + i) 0 * 256 ^ i)).sum

/-- The value of a 32-bit pattern read as `int32_t`. -/
def toInt32 (n : Nat) : Int := if n < 2 ^ 31 then n else (n : Int) - 2 ^ 32

/-- The call `fread(&fileHeader, sizeof(BMPFileHeader), 1, inFile)` at the start of the file:
the 14 bytes are copied into the packed struct (little-endian target). A file shorter than
14 bytes leaves the struct indeterminate. -/
def readFileHeader (file : List Nat) : Option BMPFileHeader :=
  if 14 ≤ file.length then
    some { type := leField file 0 2, size := leField file 2 4, reserved1 := leField file 6 2,
           reserved2 := leField file 8 2, offset := leField file 10 4 }
  else none

/-- The call `fread(&infoHeader, sizeof(BMPInfoHeader), 1, inFile)` right after the file
header: bytes 14..53. -/
def readInfoHeader (file : List Nat) : Option BMPInfoHeader :=
  if 54 ≤ file.length then
    some { size := leField file 14 4, width := toInt32 (leField file 18 4),
           height := toInt32 (leField file 22 4), planes := leField file 26 2,
           bitCount := leField file 28 2, compression := leField file 30 4,
           sizeImage := leField file 34 4, xPelsPerMeter := toInt32 (leField file 38 4),
           yPelsPerMeter := toInt32 (leField file 42 4), clrUsed := leField file 46 4,
           clrImportant := leField file 50 4 }
  else none

/-- The three diagnostics of the header validation. -/
inductive HeaderError where
  | invalidSignature
  | not24Bit
  | wrongSize
deriving DecidableEq, Repr

/-- The header validation of `main` (the same three `if` statements in both programs):
`some (e, status)` when `main` prints diagnostic `e`, closes the input and returns `status`;
`none` when control passes on to the decoder. -/
def validateHeaders (IMAGE_WIDTH IMAGE_HEIGHT : Nat) (fileHeader : BMPFileHeader)
    (infoHeader : BMPInfoHeader) : Option (HeaderError × Int) :=
  if fileHeader.type ≠ 0x4D42 then some (HeaderError.invalidSignature, 1)
  else if infoHeader.bitCount ≠ 24 then some (HeaderError.not24Bit, 1)
  else if infoHeader.width ≠ IMAGE_WIDTH ∨ infoHeader.height ≠ IMAGE_HEIGHT then
    some (HeaderError.wrongSize, 1)
  else none

/-- The padding of an input row: `(4 - ((IMAGE_WIDTH * 3) % 4)) % 4`. -/
def padding (IMAGE_WIDTH : Nat) : Nat := (4 - ((IMAGE_WIDTH * 3) % 4)) % 4

/-- The size of an input row: `IMAGE_WIDTH * 3 + padding`. -/
def rowSize (IMAGE_WIDTH : Nat) : Nat := IMAGE_WIDTH * 3 + padding IMAGE_WIDTH

/-- The state of the decoder: the buffer `imageData` and the read position of `inFile`. -/
structure DecodeState where
  imageData : List RGB
  pos : Nat
deriving DecidableEq, Repr

/-- The call `fread(&imageData[idx], sizeof(RGB), 1, inFile)`: three bytes at the read
position become the blue, green and red members, and the position advances by 3. A short
read leaves the element indeterminate and is reported as `none`, as is an index outside
the buffer. -/
def readPixel (file : List Nat) (st : DecodeState) (idx : Nat) : Option DecodeState :=
  match file[st.pos]?, file[st.pos + 1]?, file[st.pos + 2]? with
  | some b, some g, some r =>
    if idx < st.imageData.length then
      some { imageData := st.imageData.set idx { blue := b, green := g, red := r },
             pos := st.pos + 3 }
    else none
  | _, _, _ => none

/-- One iteration of the loop over `y` of the decoder: the loop over `x`, then
`fseek(inFile, padding, SEEK_CUR)`. -/
def decodeRow (file : List Nat) (IMAGE_WIDTH : Nat) (st : DecodeState) (y : Nat) :
    Option DecodeState := do
  let st ← (List.range IMAGE_WIDTH).foldlM
    (fun st x => readPixel file st (y * IMAGE_WIDTH + x)) st
  pure { st with pos := st.pos + padding IMAGE_WIDTH }

/-- The pixel decode loop of `main` (both programs): `fseek(inFile, fileHeader.offset,
SEEK_SET)`, then the rows `y = IMAGE_HEIGHT - 1` down to `0`. The buffer `imageData` comes
from `malloc`, so its initial content is arbitrary. -/
def decodePixels (file : List Nat) (offset IMAGE_WIDTH IMAGE_HEIGHT : Nat)
    (imageData : List RGB) : Option (List RGB) := do
  let st ← (List.range IMAGE_HEIGHT).reverse.foldlM (decodeRow file IMAGE_WIDTH)
    { imageData := imageData, pos := offset }
  pure st.imageData

/-- The three bytes found in the file at position `pos`, as a BGR triple. -/
def rgbAt (file : List Nat) (pos : Nat) : RGB :=
  { blue := file.getD pos 0, green := file.getD (pos + 1) 0, red := file.getD (pos + 2) 0 }

/-! ## The 8-bit BMP encoder (both programs) -/

/-- The padding of an output row: `(4 - (IMAGE_WIDTH % 4)) % 4`. -/
def newPadding (IMAGE_WIDTH : Nat) : Nat := (4 - (IMAGE_WIDTH % 4)) % 4

/-- The size of an output row: `IMAGE_WIDTH + newPadding`. -/
def newRowSize (IMAGE_WIDTH : Nat) : Nat := IMAGE_WIDTH + newPadding IMAGE_WIDTH

/-- The variable `paletteSize`. -/
def paletteSize : Nat := 256 * 4

/-- The output header setup of `main`: both headers are copied from the input headers and
six fields are overwritten. The sizes of the packed structs are 14 and 40; a value assigned
to a `uint32_t` or `uint16_t` field is reduced modulo `2 ^ 32` or `2 ^ 16`. -/
def outputHeaders (IMAGE_WIDTH IMAGE_HEIGHT : Nat) (fileHeader : BMPFileHeader)
    (infoHeader : BMPInfoHeader) : BMPFileHeader × BMPInfoHeader :=
  let newFileHeader := fileHeader
  let newInfoHeader := infoHeader
  let newFileHeader := { newFileHeader with
    size := (14 + 40 + paletteSize + newRowSize IMAGE_WIDTH * IMAGE_HEIGHT) % 2 ^ 32 }
  let newFileHeader := { newFileHeader with offset := (14 + 40 + paletteSize) % 2 ^ 32 }
  let newInfoHeader := { newInfoHeader with bitCount := 8 % 2 ^ 16 }
  let newInfoHeader := { newInfoHeader with
    sizeImage := (newRowSize IMAGE_WIDTH * IMAGE_HEIGHT) % 2 ^ 32 }
  let newInfoHeader := { newInfoHeader with clrUsed := 256 % 2 ^ 32 }
  let newInfoHeader := { newInfoHeader with clrImportant := 256 % 2 ^ 32 }
  (newFileHeader, newInfoHeader)

/-- The `k` bytes of an unsigned little-endian field holding `n`. -/
def leBytes (k n : Nat) : List Nat := (List.range k).map (fun i => n / 256 ^ i % 256)

/-- The 32-bit pattern of an `int32_t` value. -/
def int32Bits (v : Int) : Nat := (v % 2 ^ 32).toNat

/-- The bytes written by `fwrite(&newFileHeader, sizeof(BMPFileHeader), 1, outFile)`. -/
def fileHeaderBytes (h : BMPFileHeader) : List Nat :=
  leBytes 2 h.type ++ leBytes 4 h.size ++ leBytes 2 h.reserved1 ++ leBytes 2 h.reserved2
    ++ leBytes 4 h.offset

/-- The bytes written by `fwrite(&newInfoHeader, sizeof(BMPInfoHeader), 1, outFile)`. -/
def infoHeaderBytes (h : BMPInfoHeader) : List Nat :=
  leBytes 4 h.size ++ leBytes 4 (int32Bits h.width) ++ leBytes 4 (int32Bits h.height)
    ++ leBytes 2 h.planes ++ leBytes 2 h.bitCount ++ leBytes 4 h.compression
    ++ leBytes 4 h.sizeImage ++ leBytes 4 (int32Bits h.xPelsPerMeter)
    ++ leBytes 4 (int32Bits h.yPelsPerMeter) ++ leBytes 4 h.clrUsed
    ++ leBytes 4 h.clrImportant

/-- The palette loop: for `i = 0 .. 255` the array `{ i, i, i, 0 }` of four `uint8_t` is
appended to the output file. -/
def writePalette (file : List Nat) : List Nat :=
  (List.range 256).foldl (fun f i => f ++ [i % 256, i % 256, i % 256, 0]) file

/-- The array `paddingBytes`. -/
def paddingBytes : List Nat := [0, 0, 0, 0]

/-- One iteration of the row write loop: the loop over `x` appends `data[y * IMAGE_WIDTH + x]`
byte by byte, then `newPadding` bytes of `paddingBytes` are appended if `newPadding > 0`. -/
def writeRow (data : List Nat) (IMAGE_WIDTH : Nat) (file : List Nat) (y : Nat) :
    Option (List Nat) := do
  let file ← (List.range IMAGE_WIDTH).foldlM
    (fun f x => do
      let v ← data[y * IMAGE_WIDTH + x]?
      pure (f ++ [v])) file
  pure (if newPadding IMAGE_WIDTH > 0 then file ++ paddingBytes.take (newPadding IMAGE_WIDTH)
    else file)

/-- The row write loop: rows `y = IMAGE_HEIGHT - 1` down to `0`. -/
def writeRows (data : List Nat) (IMAGE_WIDTH IMAGE_HEIGHT : Nat) (file : List Nat) :
    Option (List Nat) :=
  (List.range IMAGE_HEIGHT).reverse.foldlM (writeRow data IMAGE_WIDTH) file

/-- The bytes that `main` writes to an 8-bit output file, in order: the two output headers,
the palette and the pixel rows of `data`. For `outFile` the data is `grayscaleData`; in
`Sobel_Filter.cpp` the writes to `edgeOutFile` are interleaved with these but go to another
file. -/
def encodeBMP (IMAGE_WIDTH IMAGE_HEIGHT : Nat) (fileHeader : BMPFileHeader)
    (infoHeader : BMPInfoHeader) (data : List Nat) : Option (List Nat) :=
  let headers := outputHeaders IMAGE_WIDTH IMAGE_HEIGHT fileHeader infoHeader
  writeRows data IMAGE_WIDTH IMAGE_HEIGHT
    (writePalette (fileHeaderBytes headers.1 ++ infoHeaderBytes headers.2))

/-- Reading the pixel area of an 8-bit file back by the rule of the specification: buffer
row `y` is file row `height - 1 - y`, the padding of each row is skipped. Buffer index `i` is
row `i / width`, column `i % width`. -/
def readBackPixels (file : List Nat) (width height : Nat) : List Nat :=
  (List.range (width * height)).map
    (fun i => file.getD (1078 + (height - 1 - i / width) * newRowSize width + i % width) 0)

/-! ## Sobel edge detection (`Sobel_Filter.cpp`) -/

/-- The correctly rounded binary64 square root of a natural number `n` (the library function
`sqrt` applied to an `int` converted to `double`), in units of `2 ^ (-52)`. With `e` the
binary exponent of the root, the significand is the integer nearest to the root of
`n * 4 ^ (52 - e)`; a tie cannot occur. -/
def sqrtDouble (n : Nat) : Nat :=
  let e := Nat.log2 n / 2
  let scaled := n * 4 ^ (52 - e)
  let s := Nat.sqrt scaled
  let m := if s * s + s < scaled then s + 1 else s
  m * 2 ^ e

/-- The global array `sobelX`. -/
def sobelX : List (List Int) := [[-1, 0, 1], [-2, 0, 2], [-1, 0, 1]]

/-- The global array `sobelY`. -/
def sobelY : List (List Int) := [[-1, -2, -1], [0, 0, 0], [1, 2, 1]]

/-- The array access `kernel[row][col]`. -/
def kernelEntry (kernel : List (List Int)) (row col : Int) : Int :=
  (kernel.getD row.toNat []).getD col.toNat 0

/-- The function `getPixel`: the four `if` statements clamp the coordinates, then
`image[y * width + x]` is read. -/
def getPixel (image : List Nat) (width height x y : Int) : Option Nat :=
  let x := if x < 0 then 0 else x
  let x := if x ≥ width then width - 1 else x
  let y := if y < 0 then 0 else y
  let y := if y ≥ height then height - 1 else y
  let idx := y * width + x
  if 0 ≤ idx then image[idx.toNat]? else none

/-- The body of the innermost loop of `findEdges`: one neighbour is read and added, with
its two weights, to `gx` and `gy` (the pair `acc`). -/
def sobelAccumulate (input : List Nat) (width height x y i : Int) (acc : Int × Int) (j : Int) :
    Option (Int × Int) := do
  let pixel ← getPixel input width height (x + j) (y + i)
  pure (acc.1 + pixel * kernelEntry sobelX (i + 1) (j + 1),
    acc.2 + pixel * kernelEntry sobelY (i + 1) (j + 1))

/-- The two loops `for i = -1 .. 1`, `for j = -1 .. 1` of `findEdges`, started with
`gx = 0, gy = 0`. -/
def sobelSums (input : List Nat) (width height x y : Int) : Option (Int × Int) :=
  [-1, 0, 1].foldlM
    (fun acc i => [-1, 0, 1].foldlM (sobelAccumulate input width height x y i) acc) (0, 0)

/-- The lines `int edge = (int)sqrt(gx * gx + gy * gy); if (edge > 255) edge = 255;`. -/
def edgeMagnitude (gx gy : Int) : Int :=
  let edge : Int := sqrtDouble (gx * gx + gy * gy).toNat / 2 ^ 52
  if edge > 255 then 255 else edge

/-- The assignment `buffer[idx] = value` of an `int` to an `unsigned char` element. -/
def storeByte (buffer : List Nat) (idx : Int) (value : Int) : Option (List Nat) :=
  if 0 ≤ idx ∧ idx.toNat < buffer.length then some (buffer.set idx.toNat (value % 256).toNat)
  else none

/-- The body of the loop over `x` in `findEdges`, for the pixel `(x, y)`. -/
def findEdgesPixel (input : List Nat) (width height : Int) (y : Nat) (output : List Nat)
    (x : Nat) : Option (List Nat) := do
  let (gx, gy) ← sobelSums input width height x y
  storeByte output (y * width + x) (edgeMagnitude gx gy)

/-- The function `findEdges`: the loops `for y = 0 .. height - 1`, `for x = 0 .. width - 1`
over the output buffer, which is passed along as state. -/
def findEdges (input output : List Nat) (width height : Int) : Option (List Nat) :=
  (List.range height.toNat).foldlM
    (fun out y => (List.range width.toNat).foldlM (findEdgesPixel input width height y) out)
    output

/-! ### The specification of the edge detector, in its own words -/

/-- Clamping of a coordinate to the nearest valid one: `min(max(v, 0), n - 1)`. -/
def clampCoord (v n : Int) : Int := min (max v 0) (n - 1)

/-- The input pixel sampled with the replicate-border policy: the pixel at the clamped
coordinates of a row-major image. -/
def clampedPixel (image : List Nat) (width height x y : Int) : Int :=
  (image.getD (clampCoord y height * width + clampCoord x width).toNat 0 : Nat)

/-- The sum of the 3 x 3 neighbourhood of `(x, y)`, sampled by `p`, weighted by the Gx kernel
`[[-1,0,1],[-2,0,2],[-1,0,1]]` (kernel row = vertical offset, column = horizontal offset). -/
def weightedSumX (p : Int → Int → Int) (x y : Int) : Int :=
  (-1) * p (x - 1) (y - 1) + 0 * p x (y - 1) + 1 * p (x + 1) (y - 1)
    + (-2) * p (x - 1) y + 0 * p x y + 2 * p (x + 1) y
    + (-1) * p (x - 1) (y + 1) + 0 * p x (y + 1) + 1 * p (x + 1) (y + 1)

/-- The sum of the 3 x 3 neighbourhood of `(x, y)`, sampled by `p`, weighted by the Gy kernel
`[[-1,-2,-1],[0,0,0],[1,2,1]]`. -/
def weightedSumY (p : Int → Int → Int) (x y : Int) : Int :=
  (-1) * p (x - 1) (y - 1) + (-2) * p x (y - 1) + (-1) * p (x + 1) (y - 1)
    + 0 * p (x - 1) y + 0 * p x y + 0 * p (x + 1) y
    + 1 * p (x - 1) (y + 1) + 2 * p x (y + 1) + 1 * p (x + 1) (y + 1)

/-- The sum Gx of the clamped 3 x 3 neighbourhood of `(x, y)`. -/
def sobelGx (image : List Nat) (width height x y : Int) : Int :=
  weightedSumX (clampedPixel image width height) x y

/-- The sum Gy of the clamped 3 x 3 neighbourhood of `(x, y)`. -/
def sobelGy (image : List Nat) (width height x y : Int) : Int :=
  weightedSumY (clampedPixel image width height) x y

/-- The input pixel `p(x, y)` of a row-major image, for coordinates inside the image. -/
def pixelAt (image : List Nat) (width x y : Int) : Int :=
  (image.getD (y * width + x).toNat 0 : Nat)

/-- The input pixel sampled with zero padding: 0 outside the image. This is the policy the
specification rules out. -/
def zeroPaddedPixel (image : List Nat) (width height x y : Int) : Int :=
  if 0 ≤ x ∧ x < width ∧ 0 ≤ y ∧ y < height then pixelAt image width x y else 0

/-- The gradient magnitude of the specification: `sqrt(Gx^2 + Gy^2)` truncated to an
integer and saturated at 255. -/
def gradientMagnitude (gx gy : Int) : Nat :=
  min 255 (Nat.sqrt (gx * gx + gy * gy).toNat)

/-- The value that zero padding would give at the corner `(0, 0)`. -/
def zeroPaddedCorner (image : List Nat) (width height : Int) : Nat :=
  gradientMagnitude (weightedSumX (zeroPaddedPixel image width height) 0 0)
    (weightedSumY (zeroPaddedPixel image width height) 0 0)

/-- The byte that `findEdges` stores for the pixel `(x, y)`, once the neighbourhood sums are
known to be Gx and Gy. -/
def edgeByte (image : List Nat) (width height x y : Int) : Nat :=
  (edgeMagnitude (sobelGx image width height x y) (sobelGy image width height x y) % 256).toNat

/-- The value of a vertical step image at column `c`: 0 left of the step column `k`, 255 from
column `k` on. -/
def stepValue (k c : Nat) : Nat := if c < k then 0 else 255

/-! ## The palette and the two output files of `Sobel_Filter.cpp` -/

/-- The write section of `Sobel_Filter.cpp` up to the first `fclose(edgeOutFile)` (lines
205 to 255), with the bytes of `outFile` and of `edgeOutFile` as a pair of states: both
files receive the two headers, the palette loop appends each entry to both files, then the
rows of `grayscaleData` go to `outFile` and the rows of `edgeData` to `edgeOutFile`. -/
def writeGrayAndEdge (IMAGE_WIDTH IMAGE_HEIGHT : Nat) (fileHeader : BMPFileHeader)
    (infoHeader : BMPInfoHeader) (grayscaleData edgeData : List Nat) :
    Option (List Nat × List Nat) := do
  let headers := outputHeaders IMAGE_WIDTH IMAGE_HEIGHT fileHeader infoHeader
  let outFile := fileHeaderBytes headers.1 ++ infoHeaderBytes headers.2
  let edgeOutFile := fileHeaderBytes headers.1 ++ infoHeaderBytes headers.2
  let files := (List.range 256).foldl
    (fun (fs : List Nat × List Nat) i =>
      (fs.1 ++ [i % 256, i % 256, i % 256, 0], fs.2 ++ [i % 256, i % 256, i % 256, 0]))
    (outFile, edgeOutFile)
  let outFile ← writeRows grayscaleData IMAGE_WIDTH IMAGE_HEIGHT files.1
  let edgeOutFile ← writeRows edgeData IMAGE_WIDTH IMAGE_HEIGHT files.2
  pure (outFile, edgeOutFile)

/-- The palette area of an 8-bit file: the 1024 bytes at positions 54..1077, between the
info header and the pixel data. -/
def paletteArea (file : List Nat) : List Nat := (file.drop 54).take 1024

/-- Decoding the palette of an 8-bit file: entry `i` is the triple of the first three of the
four bytes at position `54 + 4 * i`. -/
def readPalette (file : List Nat) : List (Nat × Nat × Nat) :=
  (List.range 256).map
    (fun i => (file.getD (54 + 4 * i) 0, file.getD (54 + 4 * i + 1) 0,
      file.getD (54 + 4 * i + 2) 0))

/-! ## The hex-memory export (both programs) -/

/-- The uppercase hexadecimal digit of a value below 16. -/
def hexDigit (d : Nat) : Char :=
  match d with
  | 0 => '0' | 1 => '1' | 2 => '2' | 3 => '3' | 4 => '4' | 5 => '5' | 6 => '6' | 7 => '7'
  | 8 => '8' | 9 => '9' | 10 => 'A' | 11 => 'B' | 12 => 'C' | 13 => 'D' | 14 => 'E'
  | _ => 'F'

/-- The hexadecimal digits of `n`, most significant first, in front of `acc`. The first
argument bounds the recursion. -/
def hexDigitsAux : Nat → Nat → List Char → List Char
  | 0, _, acc => acc
  | fuel + 1, n, acc =>
    if n < 16 then hexDigit n :: acc else hexDigitsAux fuel (n / 16) (hexDigit (n % 16) :: acc)

/-- The conversion `%02X` of `fprintf`: the uppercase hexadecimal digits of the value, padded
with zeros on the left to at least two characters. -/
def format02X (v : Nat) : List Char :=
  let digits := hexDigitsAux (v + 1) v []
  List.replicate (2 - digits.length) '0' ++ digits

/-- The characters that reach the file when `chars` are written to a text stream: every
line feed is written as carriage return, line feed, every other character unchanged. The
MEM file is opened with `fopen_s(&memOutFile, memFile, "w")`, a text stream. -/
def textModeBytes (chars : List Char) : List Char :=
  chars.flatMap (fun c => if c = '\n' then ['\r', '\n'] else [c])

/-- The MEM export loop of `main`: `fprintf(memOutFile, "%02X\r\n", grayscaleData[i])` for
`i` from 0 to `n - 1`, where `n` is `IMAGE_WIDTH * IMAGE_HEIGHT`. The state is the content
of the MEM file; `memOutFile` is a text stream. -/
def writeMem (grayscaleData : List Nat) (n : Nat) (memOutFile : List Char) :
    Option (List Char) :=
  (List.range n).foldlM
    (fun f i => do
      let v ← grayscaleData[i]?
      pure (f ++ textModeBytes (format02X v ++ ['\r', '\n']))) memOutFile

/-- The record of the specification for one byte: its two uppercase hexadecimal digits, high
nibble first, then carriage return and line feed. -/
def hexRecord (v : Nat) : List Char := [hexDigit (v / 16), hexDigit (v % 16), '\r', '\n']

/-- The characters found in the MEM file for one byte: the two digits, two carriage returns
and a line feed. -/
def fileRecord (v : Nat) : List Char :=
  [hexDigit (v / 16), hexDigit (v % 16), '\r', '\r', '\n']

/-! ## Mirror images -/

/-- The horizontally flipped image: pixel `(x, y)` is taken from `(width - 1 - x, y)`.
Buffer index `i` is row `i / width`, column `i % width`. -/
def flipHorizontal (image : List Nat) (width height : Nat) : List Nat :=
  (List.range (width * height)).map
    (fun i => image.getD (i / width * width + (width - 1 - i % width)) 0)

/-- The vertically flipped image: pixel `(x, y)` is taken from `(x, height - 1 - y)`. -/
def flipVertical (image : List Nat) (width height : Nat) : List Nat :=
  (List.range (width * height)).map
    (fun i => image.getD ((height - 1 - i / width) * width + i % width) 0)

/-! ## The resources of `main`: buffers and file handles -/

/-- The three heap buffers of the programs (`edgeData` exists in `Sobel_Filter.cpp` only). -/
inductive Buffer where
  | imageData
  | grayscaleData
  | edgeData
deriving DecidableEq, Repr

/-- The four file handles of the programs (`edgeOutFile` exists in `Sobel_Filter.cpp`
only). -/
inductive Handle where
  | inFile
  | outFile
  | edgeOutFile
  | memOutFile
deriving DecidableEq, Repr

/-- What a group of write calls puts into a file. -/
inductive Content where
  | headers
  | palette
  | pixelRows
  | hexText
deriving DecidableEq, Repr

/-- The calls of `main` that touch a buffer or a file handle. An allocation or an open that
fails leaves no resource behind and is not recorded. The calls of one loop, or of one run of
consecutive statements, on the same handle are recorded as a single `fread` or `fwrite`. -/
inductive Call where
  | malloc (b : Buffer)
  | free (b : Buffer)
  | fopen (h : Handle)
  | fread (h : Handle)
  | fwrite (h : Handle) (part : Content)
  | fclose (h : Handle)
deriving DecidableEq, Repr

/-- What the environment decides during a run of `main`: whether each `fopen_s` and each
`malloc` succeeds, and which headers the two `fread` calls deliver. -/
structure Outcomes where
  inputOpens : Bool
  fileHeader : BMPFileHeader
  infoHeader : BMPInfoHeader
  imageAllocated : Bool
  grayscaleAllocated : Bool
  edgeAllocated : Bool
  outputOpens : Bool
  edgeOpens : Bool
  memOpens : Bool

namespace GreyMEM

/-- The control flow of `main` in `Grey+MEM.cpp`: the calls it performs, in order, and the
value it returns. -/
def main (o : Outcomes) : List Call × Int :=
  if ¬ o.inputOpens then ([], 1) else
  let t := [Call.fopen Handle.inFile, Call.fread Handle.inFile]
  match validateHeaders IMAGE_WIDTH IMAGE_HEIGHT o.fileHeader o.infoHeader with
  | some (_, status) => (t ++ [Call.fclose Handle.inFile], status)
  | none =>
  if ¬ o.imageAllocated then (t ++ [Call.fclose Handle.inFile], 1) else
  let t := t ++ [Call.malloc Buffer.imageData, Call.fread Handle.inFile,
    Call.fclose Handle.inFile]
  if ¬ o.grayscaleAllocated then (t ++ [Call.free Buffer.imageData], 1) else
  let t := t ++ [Call.malloc Buffer.grayscaleData]
  if ¬ o.outputOpens then
    (t ++ [Call.free Buffer.imageData, Call.free Buffer.grayscaleData], 1) else
  let t := t ++ [Call.fopen Handle.outFile, Call.fwrite Handle.outFile Content.headers,
    Call.fwrite Handle.outFile Content.palette, Call.fwrite Handle.outFile Content.pixelRows]
  if ¬ o.memOpens then
    (t ++ [Call.free Buffer.imageData, Call.free Buffer.grayscaleData], 1) else
  (t ++ [Call.fopen Handle.memOutFile, Call.fwrite Handle.memOutFile Content.hexText,
    Call.fclose Handle.memOutFile, Call.fclose Handle.outFile,
    Call.free Buffer.imageData, Call.free Buffer.grayscaleData], 0)

end GreyMEM

namespace SobelFilter

/-- The control flow of `main` in `Sobel_Filter.cpp`: the calls it performs, in order, and
the value it returns. The palette loop writes each entry to `outFile` and then to
`edgeOutFile`; after the first `fclose(edgeOutFile)` (line 256) the source has a second copy
of the edge row loop and a second `fclose(edgeOutFile)` (lines 259 to 267). -/
def main (o : Outcomes) : List Call × Int :=
  if ¬ o.inputOpens then ([], 1) else
  let t := [Call.fopen Handle.inFile, Call.fread Handle.inFile]
  match validateHeaders IMAGE_WIDTH IMAGE_HEIGHT o.fileHeader o.infoHeader with
  | some (_, status) => (t ++ [Call.fclose Handle.inFile], status)
  | none =>
  if ¬ o.imageAllocated then (t ++ [Call.fclose Handle.inFile], 1) else
  let t := t ++ [Call.malloc Buffer.imageData, Call.fread Handle.inFile,
    Call.fclose Handle.inFile]
  if ¬ o.grayscaleAllocated then (t ++ [Call.free Buffer.imageData], 1) else
  let t := t ++ [Call.malloc Buffer.grayscaleData]
  if ¬ o.edgeAllocated then
    (t ++ [Call.free Buffer.imageData, Call.free Buffer.grayscaleData], 1) else
  let t := t ++ [Call.malloc Buffer.edgeData]
  if ¬ o.outputOpens then
    (t ++ [Call.free Buffer.imageData, Call.free Buffer.grayscaleData], 1) else
  let t := t ++ [Call.fopen Handle.outFile]
  if ¬ o.edgeOpens then
    (t ++ [Call.free Buffer.imageData, Call.free Buffer.grayscaleData,
      Call.free Buffer.edgeData], 1) else
  let t := t ++ [Call.fopen Handle.edgeOutFile,
    Call.fwrite Handle.outFile Content.headers, Call.fwrite Handle.edgeOutFile Content.headers,
    Call.fwrite Handle.outFile Content.palette, Call.fwrite Handle.edgeOutFile Content.palette,
    Call.fwrite Handle.outFile Content.pixelRows,
    Call.fwrite Handle.edgeOutFile Content.pixelRows, Call.fclose Handle.edgeOutFile,
    Call.fwrite Handle.edgeOutFile Content.pixelRows, Call.fclose Handle.edgeOutFile]
  if ¬ o.memOpens then
    (t ++ [Call.free Buffer.imageData, Call.free Buffer.grayscaleData], 1) else
  (t ++ [Call.fopen Handle.memOutFile, Call.fwrite Handle.memOutFile Content.hexText,
    Call.fclose Handle.memOutFile, Call.fclose Handle.outFile,
    Call.free Buffer.imageData, Call.free Buffer.grayscaleData,
    Call.free Buffer.edgeData], 0)

end SobelFilter

/-- The set of currently allocated buffers after one call. -/
def allocStep (held : List Buffer) (c : Call) : List Buffer :=
  match c with
  | Call.malloc b => b :: held
  | Call.free b => held.erase b
  | _ => held

/-- The buffers still allocated after a sequence of calls, starting with none. -/
def allocatedAfter (trace : List Call) : List Buffer := trace.foldl allocStep []

/-- The state of a file handle. -/
inductive HandleState where
  | unopened
  | opened
  | closed
deriving DecidableEq, Repr

/-- The states of the four handles. -/
structure Handles where
  inFile : HandleState
  outFile : HandleState
  edgeOutFile : HandleState
  memOutFile : HandleState
deriving DecidableEq, Repr

/-- The state of one handle. -/
def Handles.get (s : Handles) (h : Handle) : HandleState :=
  match h with
  | Handle.inFile => s.inFile
  | Handle.outFile => s.outFile
  | Handle.edgeOutFile => s.edgeOutFile
  | Handle.memOutFile => s.memOutFile

/-- The states after one handle has changed its state. -/
def Handles.set (s : Handles) (h : Handle) (v : HandleState) : Handles :=
  match h with
  | Handle.inFile => { s with inFile := v }
  | Handle.outFile => { s with outFile := v }
  | Handle.edgeOutFile => { s with edgeOutFile := v }
  | Handle.memOutFile => { s with memOutFile := v }

/-- One step of the handle state machine: `fopen` opens an unopened handle, `fread`, `fwrite`
and `fclose` require an open handle, `fclose` closes it. A call on a handle in the wrong
state has no successor state. -/
def handleStep (s : Handles) (c : Call) : Option Handles :=
  match c with
  | Call.fopen h => if s.get h = HandleState.unopened then some (s.set h HandleState.opened)
      else none
  | Call.fread h => if s.get h = HandleState.opened then some s else none
  | Call.fwrite h _ => if s.get h = HandleState.opened then some s else none
  | Call.fclose h => if s.get h = HandleState.opened then some (s.set h HandleState.closed)
      else none
  | _ => some s

/-- Running the handle state machine over a sequence of calls, from all handles
unopened; `none` when some call finds its handle in the wrong state. -/
def runHandles (trace : List Call) : Option Handles :=
  trace.foldlM handleStep
    { inFile := HandleState.unopened, outFile := HandleState.unopened,
      edgeOutFile := HandleState.unopened, memOutFile := HandleState.unopened }

/-- The environment of a run in which every `fopen_s` and every `malloc` succeeds and the
input file has the given headers. -/
def allSucceed (fileHeader : BMPFileHeader) (infoHeader : BMPInfoHeader) : Outcomes :=
  { inputOpens := true, fileHeader := fileHeader, infoHeader := infoHeader,
    imageAllocated := true, grayscaleAllocated := true, edgeAllocated := true,
    outputOpens := true, edgeOpens := true, memOpens := true }

/-- The gray levels that `rgbToGrayscale` lowers by one. -/
def darkenedGrays : List Nat :=
  [1, 2, 4, 8, 11, 13, 16, 22, 26, 27, 32, 39, 44, 51, 52, 54, 57, 59, 61, 64, 78, 81, 88, 91,
   95, 101, 102, 104, 108, 114, 115, 118, 122, 127, 128, 143, 149, 156, 157, 162, 169, 175,
   176, 182, 183, 190, 195, 202, 203, 204, 208, 209, 216, 223, 225, 228, 230, 235, 236, 239,
   241, 244, 249, 251, 254]

/-! ## Facts about binary64 rounding -/

/-- The three constants are the binary64 numbers nearest to 0.299, 0.587 and 0.114: they are
multiples of the unit in the last place of their binade (4, 8 and 1 units of `2 ^ (-56)`)
and lie within half such a unit of the decimal value. -/
theorem literals_nearest :
    (lit0299 % 4 = 0 ∧ 2 ^ 54 ≤ lit0299 ∧ lit0299 < 2 ^ 55
      ∧ 299 * 2 ^ 56 ≤ 1000 * lit0299 + 2000 ∧ 1000 * lit0299 ≤ 299 * 2 ^ 56 + 2000)
    ∧ (lit0587 % 8 = 0 ∧ 2 ^ 55 ≤ lit0587 ∧ lit0587 < 2 ^ 56
      ∧ 587 * 2 ^ 56 ≤ 1000 * lit0587 + 4000 ∧ 1000 * lit0587 ≤ 587 * 2 ^ 56 + 4000)
    ∧ (2 ^ 52 ≤ lit0114 ∧ lit0114 < 2 ^ 53
      ∧ 114 * 2 ^ 56 ≤ 1000 * lit0114 + 500 ∧ 1000 * lit0114 ≤ 114 * 2 ^ 56 + 500) := by
  simp only [lit0299, lit0587, lit0114]
  norm_num

/-- A value with at most 53 significant bits is representable and is not changed. -/
theorem roundDouble_exact (n : Nat) (h : n < 2 ^ 53) : roundDouble n = n := by
  have hs : excessBits n n = 0 := by
    cases n with
    | zero => rfl
    | succ m =>
      unfold excessBits
      rw [if_pos h]
  unfold roundDouble
  simp only [hs, Nat.pow_zero, Nat.mod_one, Nat.div_one, Nat.mul_zero, Nat.mul_one]
  rw [if_neg (by omega)]

theorem excessBits_le (fuel : Nat) : ∀ (n j : Nat), n < 2 ^ (53 + j) → excessBits fuel n ≤ j := by
  induction fuel with
  | zero => intro n j _; simp [excessBits]
  | succ f ih =>
    intro n j h
    unfold excessBits
    split
    · exact Nat.zero_le _
    · rename_i hn
      cases j with
      | zero => exact absurd (by simpa using h) hn
      | succ j =>
        have h2 : n / 2 < 2 ^ (53 + j) := by
          have : 2 ^ (53 + (j + 1)) = 2 * 2 ^ (53 + j) := by ring
          omega
        have := ih (n / 2) j h2
        omega

/-- Rounding moves a value below `2 ^ 64` units (that is, below 256) by at most `2 ^ 10`
units: half a unit in the last place of the binade of 128. -/
theorem roundDouble_near (n : Nat) (h : n < 2 ^ 64) :
    roundDouble n ≤ n + 1024 ∧ n ≤ roundDouble n + 1024 := by
  have hs : excessBits n n ≤ 11 := excessBits_le n n 11 (by simpa using h)
  have hp : 2 ^ excessBits n n ≤ 2 ^ 11 := Nat.pow_le_pow_right (by norm_num) hs
  have hpos : 0 < 2 ^ excessBits n n := Nat.two_pow_pos _
  have hdm := Nat.div_add_mod n (2 ^ excessBits n n)
  have hlt := Nat.mod_lt n hpos
  unfold roundDouble
  simp only []
  generalize 2 ^ excessBits n n = P at *
  generalize hq : n / P = q at *
  generalize hr : n % P = r at *
  have hPq : P * q = q * P := Nat.mul_comm _ _
  split
  · rename_i hc
    rw [Nat.add_mul]
    omega
  · rename_i hc
    simp only [not_or, not_and] at hc
    omega

/-- The binary64 sum of `rgbToGrayscale` stays within 7000 units of `2 ^ (-56)` of the exact
weighted sum, for channels in 0..255. -/
theorem lumaDouble_near (p : RGB) (hb : p.blue ≤ 255) (hg : p.green ≤ 255) (hr : p.red ≤ 255) :
    1000 * lumaDouble p ≤ lumaTimes1000 p * 2 ^ 56 + 7000000
      ∧ lumaTimes1000 p * 2 ^ 56 ≤ 1000 * lumaDouble p + 7000000 := by
  obtain ⟨b, g, r⟩ := p
  simp only [lumaDouble, lumaTimes1000, lit0299, lit0587, lit0114] at *
  have h1 := roundDouble_near (21545220617340452 * r) (by norm_num; omega)
  have h2 := roundDouble_near (42297807700263696 * g) (by norm_num; omega)
  have h3 := roundDouble_near (8214565720323785 * b) (by norm_num; omega)
  generalize roundDouble (21545220617340452 * r) = t1 at *
  generalize roundDouble (42297807700263696 * g) = t2 at *
  generalize roundDouble (8214565720323785 * b) = t3 at *
  have h4 := roundDouble_near (t1 + t2) (by norm_num; omega)
  generalize roundDouble (t1 + t2) = s1 at *
  have h5 := roundDouble_near (s1 + t3) (by norm_num; omega)
  generalize roundDouble (s1 + t3) = s2 at *
  norm_num
  omega

/-- C1 (as amended): for channels in 0..255 the binary64 sum of rgbToGrayscale has an integer
part in 0..255, so the cast to uint8_t does not wrap and rgbToGrayscale returns that integer
part; it equals floor(0.299 R + 0.587 G + 0.114 B) except possibly when the exact weighted
sum is an integer, where it is that integer or one less. -/
theorem rgbToGrayscale_floor_or_pred (p : RGB)
    (hb : p.blue ≤ 255) (hg : p.green ≤ 255) (hr : p.red ≤ 255) :
    lumaDouble p / 2 ^ 56 ≤ 255
      ∧ rgbToGrayscale p = lumaDouble p / 2 ^ 56
      ∧ (rgbToGrayscale p = lumaTimes1000 p / 1000
        ∨ (lumaTimes1000 p % 1000 = 0 ∧ rgbToGrayscale p + 1 = lumaTimes1000 p / 1000)) := by
  have hn := lumaDouble_near p hb hg hr
  have hE : lumaTimes1000 p ≤ 255000 := by
    simp only [lumaTimes1000]; omega
  unfold rgbToGrayscale
  generalize lumaDouble p = y at *
  generalize lumaTimes1000 p = e at *
  have key : ∀ k, k * 2 ^ 56 ≤ y → y < (k + 1) * 2 ^ 56 → y / 2 ^ 56 = k :=
    fun k h1 h2 => Nat.div_eq_of_lt_le h1 h2
  have hdm := Nat.div_add_mod e 1000
  have hlt := Nat.mod_lt e (show 0 < 1000 by norm_num)
  generalize e / 1000 = a at *
  generalize e % 1000 = t at *
  norm_num at hn key
  have cases : y / 72057594037927936 = a
      ∨ (t = 0 ∧ y / 72057594037927936 + 1 = a) := by
    by_cases ht : t = 0
    · by_cases hy : a * 72057594037927936 ≤ y
      · left
        exact key a hy (by omega)
      · right
        refine ⟨ht, ?_⟩
        have ha : 1 ≤ a := by omega
        have := key (a - 1) (by omega) (by omega)
        omega
    · left
      exact key a (by omega) (by omega)
  norm_num
  rcases cases with h | ⟨h0, h⟩
  · rw [h]
    have : a % 256 = a := Nat.mod_eq_of_lt (by omega)
    omega
  · have : y / 72057594037927936 % 256 = y / 72057594037927936 :=
      Nat.mod_eq_of_lt (by omega)
    omega

theorem rgbToGrayscale_floor_or_pred_witness :
    lumaDouble ⟨0, 72, 24⟩ / 2 ^ 56 ≤ 255
      ∧ rgbToGrayscale ⟨0, 72, 24⟩ = lumaDouble ⟨0, 72, 24⟩ / 2 ^ 56
      ∧ (rgbToGrayscale ⟨0, 72, 24⟩ = lumaTimes1000 ⟨0, 72, 24⟩ / 1000
        ∨ (lumaTimes1000 ⟨0, 72, 24⟩ % 1000 = 0
          ∧ rgbToGrayscale ⟨0, 72, 24⟩ + 1 = lumaTimes1000 ⟨0, 72, 24⟩ / 1000)) :=
  rgbToGrayscale_floor_or_pred ⟨0, 72, 24⟩ (by decide) (by decide) (by decide)

/-- C1 fails as stated: for the gray pixel (1, 1, 1) the exact weighted sum is 1, but the
binary64 sum is just below 1 and rgbToGrayscale returns 0. -/
theorem rgbToGrayscale_not_floor :
    ¬ ∀ p : RGB, p.blue ≤ 255 → p.green ≤ 255 → p.red ≤ 255 →
      rgbToGrayscale p = lumaTimes1000 p / 1000 ∧ rgbToGrayscale p ≤ 255 := by
  intro h
  have h1 := (h ⟨1, 1, 1⟩ (by decide) (by decide) (by decide)).1
  revert h1
  decide

/-! ## Facts about the square root -/

theorem sqrtDouble_trunc (n : Nat) (h : n < 2 ^ 52) : sqrtDouble n / 2 ^ 52 = Nat.sqrt n := by
  have he : Nat.log2 n / 2 ≤ 25 := by
    by_cases h0 : n = 0
    · subst h0; simp [Nat.log2]
    · have := (Nat.log2_lt h0).2 h
      omega
  have hr : Nat.sqrt n < 2 ^ 26 := by
    rw [Nat.sqrt_lt]
    calc n < 2 ^ 52 := h
      _ = 2 ^ 26 * 2 ^ 26 := by norm_num
  unfold sqrtDouble
  simp only []
  generalize Nat.log2 n / 2 = e at *
  obtain ⟨k, hk⟩ : ∃ k, 52 - e = k := ⟨_, rfl⟩
  have h52 : (2:Nat) ^ 52 = 2 ^ e * 2 ^ k := by
    rw [← pow_add]; congr 1; omega
  have h4 : (4:Nat) ^ k = 2 ^ k * 2 ^ k := by
    rw [← pow_add, show (4:Nat) = 2 ^ 2 by norm_num, ← pow_mul]; congr 1; omega
  have hK : 2 ^ 27 ≤ 2 ^ k := Nat.pow_le_pow_right (by norm_num) (by omega)
  rw [hk, h52, h4]
  generalize (2:Nat) ^ k = K at *
  have hepos : 0 < 2 ^ e := Nat.two_pow_pos _
  generalize (2:Nat) ^ e = P at *
  have hKpos : 0 < K := by omega
  rw [Nat.mul_comm _ P, Nat.mul_div_mul_left _ _ hepos]
  have h1 := Nat.sqrt_le n
  have h2 := Nat.lt_succ_sqrt n
  generalize Nat.sqrt n = r at *
  have hs1 : r * K ≤ Nat.sqrt (n * (K * K)) := by
    rw [Nat.le_sqrt]
    calc r * K * (r * K) = (r * r) * (K * K) := by ring
      _ ≤ n * (K * K) := Nat.mul_le_mul_right _ h1
  have hs2 : Nat.sqrt (n * (K * K)) < (r + 1) * K := by
    rw [Nat.sqrt_lt]
    calc n * (K * K) < ((r + 1) * (r + 1)) * (K * K) := Nat.mul_lt_mul_of_pos_right h2 (by positivity)
      _ = (r + 1) * K * ((r + 1) * K) := by ring
  generalize hs : Nat.sqrt (n * (K * K)) = s at *
  apply Nat.div_eq_of_lt_le
  · split <;> omega
  · split
    · rename_i hc
      by_contra hcon
      have hs3 : s + 1 = (r + 1) * K := by
        have : (r + 1) * K = r.succ * K := rfl
        omega
      have hn : n + 1 ≤ (r + 1) * (r + 1) := h2
      have : (s * s + s) + (r + 1) * K = (r + 1) * (r + 1) * (K * K) := by
        have : s * s + s = s * (s + 1) := by ring
        rw [this, hs3]
        have : s * ((r + 1) * K) + (r + 1) * K = (s + 1) * ((r + 1) * K) := by ring
        rw [this, hs3]; ring
      have h5 : n * (K * K) + K * K ≤ (r + 1) * (r + 1) * (K * K) := by
        calc n * (K * K) + K * K = (n + 1) * (K * K) := by ring
          _ ≤ (r + 1) * (r + 1) * (K * K) := Nat.mul_le_mul_right _ hn
      have h6 : K * K < (r + 1) * K := by omega
      have h7 : K < r + 1 := Nat.lt_of_mul_lt_mul_right h6
      omega
    · exact hs2


/-! ## Loops that fill a buffer -/

theorem foldlM_eq_foldl {α β : Type} (f : β → α → Option β) (g : β → α → β) (P : β → Prop)
    (l : List α) (hstep : ∀ b a, a ∈ l → P b → f b a = some (g b a) ∧ P (g b a)) :
    ∀ b, P b → l.foldlM f b = some (l.foldl g b) ∧ P (l.foldl g b) := by
  induction l with
  | nil => intro b hb; exact ⟨rfl, hb⟩
  | cons a l ih =>
    intro b hb
    obtain ⟨h1, h2⟩ := hstep b a (List.mem_cons_self _ _) hb
    have ih2 := ih (fun b a ha hb => hstep b a (List.mem_cons_of_mem _ ha) hb) (g b a) h2
    simp only [List.foldlM_cons, h1, List.foldl_cons]
    exact ih2

theorem foldl_nested {α β γ : Type} (step : γ → α × β → γ) (ys : List α) (xs : List β) :
    ∀ c, ys.foldl (fun o y => xs.foldl (fun o x => step o (y, x)) o) c
      = (ys.flatMap (fun y => xs.map (Prod.mk y))).foldl step c := by
  induction ys with
  | nil => intro c; rfl
  | cons y ys ih =>
    intro c
    simp only [List.foldl_cons, List.flatMap_cons, List.foldl_append, List.foldl_map]
    exact ih _

theorem foldl_set_length {α β : Type} (pos : α → Nat) (val : α → β) (l : List α) :
    ∀ out : List β, (l.foldl (fun o a => o.set (pos a) (val a)) out).length = out.length := by
  induction l with
  | nil => intro out; rfl
  | cons a l ih => intro out; simp only [List.foldl_cons, ih, List.length_set]

theorem foldl_set_untouched {α β : Type} (pos : α → Nat) (val : α → β) (l : List α) (k : Nat)
    (hk : ∀ a ∈ l, pos a ≠ k) :
    ∀ out : List β, (l.foldl (fun o a => o.set (pos a) (val a)) out)[k]? = out[k]? := by
  induction l with
  | nil => intro out; rfl
  | cons a l ih =>
    intro out
    simp only [List.foldl_cons]
    rw [ih (fun a ha => hk a (List.mem_cons_of_mem _ ha))]
    exact List.getElem?_set_ne (hk a (List.mem_cons_self _ _))

theorem foldl_set_written {α β : Type} (pos : α → Nat) (val : α → β) (l : List α) (k : Nat)
    (v : β) (hsame : ∀ a ∈ l, pos a = k → val a = v) :
    ∀ out : List β, k < out.length → (∃ a ∈ l, pos a = k) →
      (l.foldl (fun o a => o.set (pos a) (val a)) out)[k]? = some v := by
  induction l with
  | nil => intro out _ h; obtain ⟨a, ha, _⟩ := h; cases ha
  | cons a l ih =>
    intro out hlen hex
    simp only [List.foldl_cons]
    by_cases hl : ∃ a' ∈ l, pos a' = k
    · exact ih (fun a ha => hsame a (List.mem_cons_of_mem _ ha)) _
        (by simpa using hlen) hl
    · have hno : ∀ a' ∈ l, pos a' ≠ k := fun a' ha' h => hl ⟨a', ha', h⟩
      rw [foldl_set_untouched pos val l k hno]
      obtain ⟨a0, ha0, hp⟩ := hex
      rcases List.mem_cons.1 ha0 with rfl | hmem
      · rw [hp, List.getElem?_set_self hlen, hsame a0 (List.mem_cons_self _ _) hp]
      · exact absurd hp (hno a0 hmem)

theorem index_inj (W x y x0 y0 : Nat) (hx : x < W) (hx0 : x0 < W)
    (h : y * W + x = y0 * W + x0) : y = y0 ∧ x = x0 := by
  have h1 : (y * W + x) / W = y := by
    rw [Nat.mul_comm, Nat.mul_add_div (by omega), Nat.div_eq_of_lt hx]; rfl
  have h2 : (y0 * W + x0) / W = y0 := by
    rw [Nat.mul_comm, Nat.mul_add_div (by omega), Nat.div_eq_of_lt hx0]; rfl
  have hy : y = y0 := by rw [← h1, ← h2, h]
  subst hy
  exact ⟨rfl, by omega⟩

theorem index_lt (W H x y : Nat) (hx : x < W) (hy : y < H) : y * W + x < W * H := by
  have : (y + 1) * W ≤ H * W := Nat.mul_le_mul_right _ hy
  have h2 : H * W = W * H := Nat.mul_comm _ _
  have h3 : (y + 1) * W = y * W + W := by ring
  omega

/-- Writing `val x y` at index `y * W + x` for all rows in `ys` and columns below `W`. -/
theorem fill_grid {β : Type} (W H : Nat) (val : Nat → Nat → β) (ys : List Nat) (out : List β)
    (hys : ∀ y, y ∈ ys ↔ y < H) (hlen : out.length = W * H) (x y : Nat) (hx : x < W) (hy : y < H) :
    (ys.foldl (fun o y => (List.range W).foldl (fun o x => o.set (y * W + x) (val x y)) o)
      out)[y * W + x]? = some (val x y) := by
  have hn := foldl_nested (fun (o : List β) (a : Nat × Nat) => o.set (a.1 * W + a.2) (val a.2 a.1))
    ys (List.range W) out
  simp only [] at hn
  rw [hn]
  apply foldl_set_written (fun a : Nat × Nat => a.1 * W + a.2) (fun a => val a.2 a.1)
  · rintro ⟨y1, x1⟩ hmem hpos
    simp only [List.mem_flatMap, List.mem_map, List.mem_range, Prod.mk.injEq] at hmem
    obtain ⟨a, _, b, hb, rfl, rfl⟩ := hmem
    obtain ⟨h1, h2⟩ := index_inj W b a x y hb hx hpos
    simp only [h1, h2]
  · rw [hlen]; exact index_lt W H x y hx hy
  · refine ⟨(y, x), ?_, rfl⟩
    simp only [List.mem_flatMap, List.mem_map, List.mem_range, Prod.mk.injEq]
    exact ⟨y, (hys y).2 hy, x, hx, rfl, rfl⟩


/-! ## Facts about `getPixel` and `findEdges` -/

theorem clamp_index (width height x y : Int) (hw : 1 ≤ width) (hh : 1 ≤ height) :
    0 ≤ clampCoord y height * width + clampCoord x width
      ∧ clampCoord y height * width + clampCoord x width < width * height := by
  have hx0 : 0 ≤ clampCoord x width := by unfold clampCoord; omega
  have hx1 : clampCoord x width ≤ width - 1 := by unfold clampCoord; omega
  have hy0 : 0 ≤ clampCoord y height := by unfold clampCoord; omega
  have hy1 : clampCoord y height ≤ height - 1 := by unfold clampCoord; omega
  generalize clampCoord x width = cx at *
  generalize clampCoord y height = cy at *
  constructor
  · positivity
  · nlinarith

theorem getPixel_eq (image : List Nat) (width height x y : Int) (hw : 1 ≤ width) (hh : 1 ≤ height)
    (hlen : (image.length : Int) = width * height) :
    getPixel image width height x y
      = some (image.getD (clampCoord y height * width + clampCoord x width).toNat 0) := by
  have hidx := clamp_index width height x y hw hh
  have hcx : (if (if x < 0 then 0 else x) ≥ width then width - 1 else (if x < 0 then 0 else x))
      = clampCoord x width := by
    unfold clampCoord; split <;> split <;> omega
  have hcy : (if (if y < 0 then 0 else y) ≥ height then height - 1 else (if y < 0 then 0 else y))
      = clampCoord y height := by
    unfold clampCoord; split <;> split <;> omega
  unfold getPixel
  simp only [hcx, hcy]
  rw [if_pos hidx.1]
  have : (clampCoord y height * width + clampCoord x width).toNat < image.length := by
    omega
  rw [List.getD_eq_getElem?_getD, List.getElem?_eq_getElem this]
  simp

theorem sobelX_entries :
    kernelEntry sobelX 0 0 = -1 ∧ kernelEntry sobelX 0 1 = 0 ∧ kernelEntry sobelX 0 2 = 1
      ∧ kernelEntry sobelX 1 0 = -2 ∧ kernelEntry sobelX 1 1 = 0 ∧ kernelEntry sobelX 1 2 = 2
      ∧ kernelEntry sobelX 2 0 = -1 ∧ kernelEntry sobelX 2 1 = 0 ∧ kernelEntry sobelX 2 2 = 1 := by
  decide

theorem sobelY_entries :
    kernelEntry sobelY 0 0 = -1 ∧ kernelEntry sobelY 0 1 = -2 ∧ kernelEntry sobelY 0 2 = -1
      ∧ kernelEntry sobelY 1 0 = 0 ∧ kernelEntry sobelY 1 1 = 0 ∧ kernelEntry sobelY 1 2 = 0
      ∧ kernelEntry sobelY 2 0 = 1 ∧ kernelEntry sobelY 2 1 = 2 ∧ kernelEntry sobelY 2 2 = 1 := by
  decide

theorem sobelSums_eq (input : List Nat) (width height x y : Int) (hw : 1 ≤ width)
    (hh : 1 ≤ height) (hlen : (input.length : Int) = width * height) :
    sobelSums input width height x y
      = some (sobelGx input width height x y, sobelGy input width height x y) := by
  have hk : ∀ a b : Int, getPixel input width height a b = some (clampedPixel input width height a b).toNat := by
    intro a b
    rw [getPixel_eq input width height a b hw hh hlen]
    simp [clampedPixel]
  have hc : ∀ a b : Int, ((clampedPixel input width height a b).toNat : Int) = clampedPixel input width height a b := by
    intro a b
    simp [clampedPixel]
  simp only [sobelSums, List.foldlM_cons, List.foldlM_nil, sobelAccumulate, hk, hc, bind_pure,
    Option.bind_eq_bind, Option.some_bind, Option.pure_def]
  obtain ⟨x00, x01, x02, x10, x11, x12, x20, x21, x22⟩ := sobelX_entries
  obtain ⟨y00, y01, y02, y10, y11, y12, y20, y21, y22⟩ := sobelY_entries
  have e0 : (-1 + 1 : Int) = 0 := by norm_num
  have e1 : (0 + 1 : Int) = 1 := by norm_num
  have e2 : (1 + 1 : Int) = 2 := by norm_num
  simp only [e0, e1, e2, x00, x01, x02, x10, x11, x12, x20, x21, x22, y00, y01, y02, y10, y11,
    y12, y20, y21, y22, sobelGx, sobelGy, weightedSumX, weightedSumY]
  simp only [Option.some.injEq, Prod.mk.injEq]
  constructor <;> ring_nf
theorem findEdgesPixel_eq (input output : List Nat) (W H x y : Nat)
    (hx : x < W) (hy : y < H) (hin : input.length = W * H) (hout : output.length = W * H) :
    findEdgesPixel input W H y output x
      = some (output.set (y * W + x) (edgeByte input W H x y)) := by
  have hs := sobelSums_eq input W H x y (by omega) (by omega) (by exact_mod_cast hin)
  have hidx := index_lt W H x y hx hy
  have hcast : ((y : Int) * (W : Int) + (x : Int)) = ((y * W + x : Nat) : Int) := by push_cast; ring
  unfold findEdgesPixel
  rw [hs]
  simp only [Option.bind_eq_bind, Option.some_bind, storeByte, hcast, Int.toNat_ofNat]
  rw [if_pos ⟨Int.ofNat_nonneg _, by omega⟩]
  rfl

theorem findEdges_run (input output : List Nat) (W H : Nat)
    (hin : input.length = W * H) (hout : output.length = W * H) :
    ∃ out, findEdges input output W H = some out ∧ out.length = W * H
      ∧ ∀ x y, x < W → y < H → out[y * W + x]? = some (edgeByte input W H x y) := by
  have hrow : ∀ (out : List Nat) (y : Nat), y ∈ List.range H → out.length = W * H →
      (List.range W).foldlM (findEdgesPixel input W H y) out
        = some ((List.range W).foldl (fun o x => o.set (y * W + x) (edgeByte input W H x y)) out)
      ∧ ((List.range W).foldl (fun o x => o.set (y * W + x) (edgeByte input W H x y)) out).length
        = W * H := by
    intro out y hy hlen
    refine foldlM_eq_foldl _ _ (fun o => o.length = W * H) _ ?_ out hlen
    intro b x hx hb
    refine ⟨findEdgesPixel_eq input b W H x y (List.mem_range.1 hx) (List.mem_range.1 hy)
      hin hb, ?_⟩
    simpa using hb
  have hall := foldlM_eq_foldl
    (fun out (y : Nat) => (List.range W).foldlM (findEdgesPixel input W H y) out)
    (fun out y => (List.range W).foldl (fun o x => o.set (y * W + x) (edgeByte input W H x y)) out)
    (fun o => o.length = W * H) (List.range H) hrow output hout
  refine ⟨_, ?_, hall.2, ?_⟩
  · unfold findEdges
    simp only [Int.toNat_ofNat]
    exact hall.1
  · intro x y hx hy
    exact fill_grid W H (fun x y => edgeByte input W H x y) (List.range H) output
      (fun y => List.mem_range) hout x y hx hy

theorem clampedPixel_byte (image : List Nat) (width height x y : Int)
    (hbytes : ∀ v ∈ image, v ≤ 255) :
    0 ≤ clampedPixel image width height x y ∧ clampedPixel image width height x y ≤ 255 := by
  unfold clampedPixel
  generalize (clampCoord y height * width + clampCoord x width).toNat = n
  rw [List.getD_eq_getElem?_getD]
  cases h : image[n]? with
  | none => simp
  | some v =>
    have hv := hbytes v (List.getElem?_mem h)
    simp only [Option.getD_some]
    omega

theorem sobel_bounds (image : List Nat) (width height x y : Int)
    (hbytes : ∀ v ∈ image, v ≤ 255) :
    (-1020 ≤ sobelGx image width height x y ∧ sobelGx image width height x y ≤ 1020)
      ∧ (-1020 ≤ sobelGy image width height x y ∧ sobelGy image width height x y ≤ 1020) := by
  have h := fun a b => clampedPixel_byte image width height a b hbytes
  have h1 := h (x - 1) (y - 1)
  have h2 := h x (y - 1)
  have h3 := h (x + 1) (y - 1)
  have h4 := h (x - 1) y
  have h6 := h (x + 1) y
  have h7 := h (x - 1) (y + 1)
  have h8 := h x (y + 1)
  have h9 := h (x + 1) (y + 1)
  unfold sobelGx sobelGy weightedSumX weightedSumY
  omega

theorem sq_sum_bound (gx gy : Int) (hx : -1020 ≤ gx ∧ gx ≤ 1020) (hy : -1020 ≤ gy ∧ gy ≤ 1020) :
    0 ≤ gx * gx + gy * gy ∧ gx * gx + gy * gy ≤ 2080800 := by
  constructor
  · nlinarith [mul_self_nonneg gx, mul_self_nonneg gy]
  · nlinarith

theorem edgeMagnitude_eq (gx gy : Int) (hx : -1020 ≤ gx ∧ gx ≤ 1020)
    (hy : -1020 ≤ gy ∧ gy ≤ 1020) :
    (edgeMagnitude gx gy % 256).toNat = gradientMagnitude gx gy := by
  have hb := sq_sum_bound gx gy hx hy
  have hlt : (gx * gx + gy * gy).toNat < 2 ^ 52 := by
    have : (gx * gx + gy * gy).toNat ≤ 2080800 := by omega
    exact lt_of_le_of_lt this (by norm_num)
  unfold edgeMagnitude gradientMagnitude
  simp only []
  have hcast : ((sqrtDouble (gx * gx + gy * gy).toNat : Int) / 2 ^ 52)
      = ((sqrtDouble (gx * gx + gy * gy).toNat / 2 ^ 52 : Nat) : Int) := by
    push_cast; rfl
  rw [hcast, sqrtDouble_trunc _ hlt]
  generalize Nat.sqrt (gx * gx + gy * gy).toNat = r
  split <;> omega

theorem edgeByte_eq (image : List Nat) (width height x y : Int)
    (hbytes : ∀ v ∈ image, v ≤ 255) :
    edgeByte image width height x y
      = gradientMagnitude (sobelGx image width height x y) (sobelGy image width height x y) := by
  have hb := sobel_bounds image width height x y hbytes
  exact edgeMagnitude_eq _ _ hb.1 hb.2

theorem clampedPixel_inside (image : List Nat) (W H a b v : Nat) (ha : a < W) (hb : b < H)
    (hv : image[b * W + a]? = some v) : clampedPixel image W H a b = v := by
  have h1 : clampCoord (a : Int) (W : Int) = a := by unfold clampCoord; omega
  have h2 : clampCoord (b : Int) (H : Int) = b := by unfold clampCoord; omega
  have h3 : ((b : Int) * (W : Int) + (a : Int)).toNat = b * W + a := by
    have : ((b : Int) * (W : Int) + (a : Int)) = ((b * W + a : Nat) : Int) := by push_cast; ring
    rw [this, Int.toNat_ofNat]
  unfold clampedPixel
  rw [h1, h2, h3, List.getD_eq_getElem?_getD, hv]
  rfl

theorem index_split (W k : Nat) : k = k / W * W + k % W := by
  have := Nat.div_add_mod k W
  rw [Nat.mul_comm] at this
  omega

theorem index_div_lt (W H k : Nat) (hk : k < W * H) : k / W < H :=
  Nat.div_lt_of_lt_mul hk

theorem gradientMagnitude_zero : gradientMagnitude 0 0 = 0 := by
  simp [gradientMagnitude]

theorem gradientMagnitude_1020 : gradientMagnitude 1020 0 = 255 := by
  have h : Nat.sqrt (1020 * 1020) = 1020 := Nat.sqrt_eq 1020
  have e : ((1020 : Int) * 1020 + 0 * 0).toNat = 1020 * 1020 := by decide
  unfold gradientMagnitude
  rw [e, h]
  decide

theorem findEdges_uniform_zero_aux (width height v : Nat) (output : List Nat) (hw : 1 ≤ width)
    (hh : 1 ≤ height) (hout : output.length = width * height) :
    findEdges (List.replicate (width * height) v) output width height
      = some (List.replicate (width * height) 0) := by
  obtain ⟨out, hrun, hlen, hval⟩ := findEdges_run (List.replicate (width * height) v) output
    width height (by simp) hout
  rw [hrun]
  congr 1
  apply List.ext_getElem?
  intro k
  by_cases hk : k < width * height
  · have hx : k % width < width := Nat.mod_lt _ (by omega)
    have hy : k / width < height := index_div_lt width height k hk
    have hsplit := index_split width k
    have hpix : ∀ a b : Int, clampedPixel (List.replicate (width * height) v) width height a b
        = v := by
      intro a b
      have hidx := clamp_index width height a b (by omega) (by omega)
      have hlt : (clampCoord b height * width + clampCoord a width).toNat < width * height := by
        have : ((width * height : Nat) : Int) = (width : Int) * (height : Int) := by push_cast; ring
        omega
      unfold clampedPixel
      rw [List.getD_eq_getElem?_getD, List.getElem?_replicate_of_lt hlt]
      rfl
    have hzero : edgeByte (List.replicate (width * height) v) width height
        (k % width : Nat) (k / width : Nat) = 0 := by
      have hgx : sobelGx (List.replicate (width * height) v) width height
          (k % width : Nat) (k / width : Nat) = 0 := by
        simp only [sobelGx, weightedSumX, hpix]; ring
      have hgy : sobelGy (List.replicate (width * height) v) width height
          (k % width : Nat) (k / width : Nat) = 0 := by
        simp only [sobelGy, weightedSumY, hpix]; ring
      unfold edgeByte
      rw [hgx, hgy, edgeMagnitude_eq 0 0 (by omega) (by omega), gradientMagnitude_zero]
    have := hval (k % width) (k / width) hx hy
    rw [← hsplit, hzero] at this
    rw [this, List.getElem?_replicate_of_lt hk]
  · rw [List.getElem?_eq_none (by omega), List.getElem?_eq_none (by simp; omega)]

/-- C2: for every width >= 1, height >= 1 and value v, findEdges run on the image whose
width*height entries all equal v returns normally and leaves 0 in every one of the
width*height entries of the output buffer, whatever the buffer held before. -/
theorem findEdges_uniform_zero (width height v : Nat) (output : List Nat) (hw : 1 ≤ width)
    (hh : 1 ≤ height) (hout : output.length = width * height) :
    findEdges (List.replicate (width * height) v) output width height
      = some (List.replicate (width * height) 0) :=
  findEdges_uniform_zero_aux width height v output hw hh hout

theorem findEdges_uniform_zero_witness :
    findEdges (List.replicate (2 * 3) 200) [1, 2, 3, 4, 5, 6] (2 : Nat) (3 : Nat)
      = some (List.replicate (2 * 3) 0) :=
  findEdges_uniform_zero 2 3 200 [1, 2, 3, 4, 5, 6] (by decide) (by decide) (by decide)

theorem step_interior (input : List Nat) (width height k x y : Nat)
    (hstep : ∀ x y : Nat, x < width → y < height → input[y * width + x]? = some (stepValue k x))
    (hx : x + 2 < width) (hy : y + 2 < height) :
    edgeByte input width height (x + 1 : Nat) (y + 1 : Nat)
      = if x + 2 = k ∨ x + 1 = k then 255 else 0 := by
  have e1 : ((x + 1 : Nat) : Int) - 1 = (x : Nat) := by push_cast; ring
  have e2 : ((x + 1 : Nat) : Int) + 1 = (x + 2 : Nat) := by push_cast; ring
  have e3 : ((y + 1 : Nat) : Int) - 1 = (y : Nat) := by push_cast; ring
  have e4 : ((y + 1 : Nat) : Int) + 1 = (y + 2 : Nat) := by push_cast; ring
  have hp : ∀ a b : Nat, a < width → b < height →
      clampedPixel input width height a b = stepValue k a :=
    fun a b ha hb => clampedPixel_inside input width height a b _ ha hb (hstep a b ha hb)
  have hgy : sobelGy input width height (x + 1 : Nat) (y + 1 : Nat) = 0 := by
    unfold sobelGy weightedSumY
    rw [e1, e2, e3, e4, hp x y (by omega) (by omega), hp (x + 1) y (by omega) (by omega),
      hp (x + 2) y (by omega) (by omega), hp x (y + 2) (by omega) (by omega),
      hp (x + 1) (y + 2) (by omega) (by omega), hp (x + 2) (y + 2) (by omega) (by omega)]
    ring
  have hgx : sobelGx input width height (x + 1 : Nat) (y + 1 : Nat)
      = 4 * ((stepValue k (x + 2) : Int) - (stepValue k x : Int)) := by
    unfold sobelGx weightedSumX
    rw [e1, e2, e3, e4, hp x y (by omega) (by omega), hp x (y + 1) (by omega) (by omega),
      hp x (y + 2) (by omega) (by omega), hp (x + 2) y (by omega) (by omega),
      hp (x + 2) (y + 1) (by omega) (by omega), hp (x + 2) (y + 2) (by omega) (by omega)]
    ring
  unfold edgeByte
  rw [hgx, hgy]
  by_cases h : x + 2 = k ∨ x + 1 = k
  · have hv : 4 * ((stepValue k (x + 2) : Int) - (stepValue k x : Int)) = 1020 := by
      unfold stepValue
      rw [if_neg (by omega), if_pos (by omega)]
      norm_num
    rw [hv, if_pos h, edgeMagnitude_eq 1020 0 (by omega) (by omega), gradientMagnitude_1020]
  · have hv : 4 * ((stepValue k (x + 2) : Int) - (stepValue k x : Int)) = 0 := by
      unfold stepValue
      by_cases hk : x + 2 < k
      · rw [if_pos hk, if_pos (by omega)]; norm_num
      · rw [if_neg hk, if_neg (by omega)]; norm_num
    rw [hv, if_neg h, edgeMagnitude_eq 0 0 (by omega) (by omega), gradientMagnitude_zero]

theorem step_image_4x3 : ∀ x y, x < 4 → y < 3 →
    [0, 0, 255, 255, 0, 0, 255, 255, 0, 0, 255, 255][y * 4 + x]? = some (stepValue 2 x) := by
  have h : ∀ x, x < 4 → ∀ y, y < 3 →
      [0, 0, 255, 255, 0, 0, 255, 255, 0, 0, 255, 255][y * 4 + x]? = some (stepValue 2 x) := by
    decide
  exact fun x y hx hy => h x hx y hy

/-- C3 (as amended): for every width, height and step column k, if the input of findEdges is
a single vertical black/white step edge (0 in every column left of k, 255 in column k and to
its right), then findEdges returns normally and for every pixel (x, y) away from the borders
(1 <= x <= width-2, 1 <= y <= height-2) the output is 255 exactly when x is the step column k
or the column k-1 just left of it, and 0 at every other column. -/
theorem findEdges_step_edge (width height k : Nat) (input output : List Nat)
    (hin : input.length = width * height) (hout : output.length = width * height)
    (hstep : ∀ x y : Nat, x < width → y < height → input[y * width + x]? = some (stepValue k x)) :
    ∃ out, findEdges input output width height = some out
      ∧ ∀ x y : Nat, 1 ≤ x → x + 2 ≤ width → 1 ≤ y → y + 2 ≤ height →
        out[y * width + x]? = some (if x = k ∨ x + 1 = k then 255 else 0) := by
  obtain ⟨out, hrun, _, hval⟩ := findEdges_run input output width height hin hout
  refine ⟨out, hrun, ?_⟩
  intro x y hx1 hx2 hy1 hy2
  obtain ⟨x, rfl⟩ : ∃ a, x = a + 1 := ⟨x - 1, by omega⟩
  obtain ⟨y, rfl⟩ : ∃ a, y = a + 1 := ⟨y - 1, by omega⟩
  rw [hval (x + 1) (y + 1) (by omega) (by omega),
    step_interior input width height k x y hstep (by omega) (by omega)]
  congr 1
  by_cases h : x + 2 = k ∨ x + 1 = k
  · rw [if_pos h, if_pos (by omega)]
  · rw [if_neg h, if_neg (by omega)]

theorem findEdges_step_edge_witness :
    ∃ out, findEdges [0, 0, 255, 255, 0, 0, 255, 255, 0, 0, 255, 255]
        [9, 9, 9, 9, 9, 9, 9, 9, 9, 9, 9, 9] (4 : Nat) (3 : Nat) = some out
      ∧ ∀ x y : Nat, 1 ≤ x → x + 2 ≤ 4 → 1 ≤ y → y + 2 ≤ 3 →
        out[y * 4 + x]? = some (if x = 2 ∨ x + 1 = 2 then 255 else 0) :=
  findEdges_step_edge 4 3 2 [0, 0, 255, 255, 0, 0, 255, 255, 0, 0, 255, 255]
    [9, 9, 9, 9, 9, 9, 9, 9, 9, 9, 9, 9] (by decide) (by decide) step_image_4x3

/-- C3 fails as stated: in the 4 x 3 image with step column 2 the interior pixel (1, 1),
which is not in the step column, gets 255 as well, since the kernel compares the columns
x-1 and x+1. -/
theorem findEdges_step_edge_two_columns :
    ¬ ∀ (width height k : Nat) (input output : List Nat),
      input.length = width * height → output.length = width * height →
      (∀ x y : Nat, x < width → y < height → input[y * width + x]? = some (stepValue k x)) →
      ∃ out, findEdges input output width height = some out
        ∧ ∀ x y : Nat, 1 ≤ x → x + 2 ≤ width → 1 ≤ y → y + 2 ≤ height →
          out[y * width + x]? = some (if x = k then 255 else 0) := by
  intro h
  obtain ⟨out, hrun, hval⟩ := h 4 3 2 [0, 0, 255, 255, 0, 0, 255, 255, 0, 0, 255, 255]
    [9, 9, 9, 9, 9, 9, 9, 9, 9, 9, 9, 9] (by decide) (by decide) step_image_4x3
  obtain ⟨out2, hrun2, _, hval2⟩ := findEdges_run
    [0, 0, 255, 255, 0, 0, 255, 255, 0, 0, 255, 255] [9, 9, 9, 9, 9, 9, 9, 9, 9, 9, 9, 9] 4 3
    (by decide) (by decide)
  rw [hrun] at hrun2
  cases hrun2
  have h1 := hval 1 1 (by decide) (by decide) (by decide) (by decide)
  have h2 := hval2 1 1 (by decide) (by decide)
  have h3 := step_interior [0, 0, 255, 255, 0, 0, 255, 255, 0, 0, 255, 255] 4 3 2 0 0
    step_image_4x3 (by decide) (by decide)
  rw [h2] at h1
  simp only [Nat.cast_ofNat, Nat.cast_zero, Nat.cast_one, zero_add] at h3 h1
  have h4 : edgeByte [0, 0, 255, 255, 0, 0, 255, 255, 0, 0, 255, 255] 4 3 1 1 = 255 := by
    rw [h3]; decide
  have h5 : edgeByte [0, 0, 255, 255, 0, 0, 255, 255, 0, 0, 255, 255] 4 3 1 1 = 0 := by
    have := Option.some.inj h1
    rw [this]; decide
  omega

/-- C4: for width >= 1, height >= 1, an image of width*height bytes and every pair of
integers (x, y), negative and too large ones included, the clamped index cy*width + cx, with
cx = min(max(x, 0), width-1) and cy = min(max(y, 0), height-1), lies in 0..width*height-1,
and getPixel returns the image byte at that index (a value that is in the image, never a
padded or wrapped one); in particular column -1 reads column 0 and row height reads row
height-1. -/
theorem getPixel_replicates_border (image : List Nat) (width height x y : Int)
    (hw : 1 ≤ width) (hh : 1 ≤ height) (hlen : (image.length : Int) = width * height) :
    (0 ≤ min (max y 0) (height - 1) * width + min (max x 0) (width - 1)
      ∧ min (max y 0) (height - 1) * width + min (max x 0) (width - 1) ≤ width * height - 1)
    ∧ (∃ v, image[(min (max y 0) (height - 1) * width + min (max x 0) (width - 1)).toNat]?
          = some v
        ∧ getPixel image width height x y = some v)
    ∧ getPixel image width height (-1) y = getPixel image width height 0 y
    ∧ getPixel image width height x height = getPixel image width height x (height - 1) := by
  have hidx := clamp_index width height x y hw hh
  have hget := fun a b => getPixel_eq image width height a b hw hh hlen
  unfold clampCoord at hidx
  refine ⟨⟨hidx.1, by omega⟩, ?_, ?_, ?_⟩
  · have hlt : (min (max y 0) (height - 1) * width + min (max x 0) (width - 1)).toNat
        < image.length := by omega
    refine ⟨_, List.getElem?_eq_getElem hlt, ?_⟩
    rw [hget x y]
    unfold clampCoord
    rw [List.getD_eq_getElem?_getD, List.getElem?_eq_getElem hlt]
    rfl
  · rw [hget (-1) y, hget 0 y]
    have : clampCoord (-1) width = clampCoord 0 width := by unfold clampCoord; omega
    rw [this]
  · rw [hget x height, hget x (height - 1)]
    have : clampCoord height height = clampCoord (height - 1) height := by
      unfold clampCoord; omega
    rw [this]

theorem getPixel_replicates_border_witness :
    (0 ≤ min (max (5 : Int) 0) (2 - 1) * 2 + min (max (-3 : Int) 0) (2 - 1)
      ∧ min (max (5 : Int) 0) (2 - 1) * 2 + min (max (-3 : Int) 0) (2 - 1) ≤ 2 * 2 - 1)
    ∧ (∃ v, [10, 20, 30, 40][(min (max (5 : Int) 0) (2 - 1) * 2
          + min (max (-3 : Int) 0) (2 - 1)).toNat]? = some v
        ∧ getPixel [10, 20, 30, 40] 2 2 (-3) 5 = some v)
    ∧ getPixel [10, 20, 30, 40] 2 2 (-1) 5 = getPixel [10, 20, 30, 40] 2 2 0 5
    ∧ getPixel [10, 20, 30, 40] 2 2 (-3) 2 = getPixel [10, 20, 30, 40] 2 2 (-3) (2 - 1) :=
  getPixel_replicates_border [10, 20, 30, 40] 2 2 (-3) 5 (by decide) (by decide) (by decide)

theorem clampedPixel_eq_pixelAt (image : List Nat) (width height a b ca cb : Int)
    (ha : clampCoord a width = ca) (hb : clampCoord b height = cb) :
    clampedPixel image width height a b = pixelAt image width ca cb := by
  unfold clampedPixel pixelAt
  rw [ha, hb]

/-- C5: for every image of bytes with width >= 2 and height >= 2, findEdges returns normally
and the value it writes at the corner (0,0) is min(255, floor(sqrt(Gx^2 + Gy^2))) with
Gx = 3*(p(1,0) - p(0,0)) + (p(1,1) - p(0,1)) and Gy = 3*(p(0,1) - p(0,0)) + (p(1,1) - p(1,0)),
the sums over the replicate-clamped neighbourhood. The rule is not zero padding: on the
uniform 2 x 2 image of value 100 findEdges writes 0 at the corner, where a zero-padded
neighbourhood would give 255. -/
theorem findEdges_corner_replicate (width height : Nat) (input output : List Nat)
    (hw : 2 ≤ width) (hh : 2 ≤ height) (hin : input.length = width * height)
    (hout : output.length = width * height) (hbytes : ∀ v ∈ input, v ≤ 255) :
    (∃ out, findEdges input output width height = some out
      ∧ out[0]? = some (gradientMagnitude
          (3 * (pixelAt input width 1 0 - pixelAt input width 0 0)
            + (pixelAt input width 1 1 - pixelAt input width 0 1))
          (3 * (pixelAt input width 0 1 - pixelAt input width 0 0)
            + (pixelAt input width 1 1 - pixelAt input width 1 0))))
    ∧ (∃ out, findEdges [100, 100, 100, 100] [0, 0, 0, 0] 2 2 = some out
      ∧ out[0]? = some 0 ∧ zeroPaddedCorner [100, 100, 100, 100] 2 2 = 255) := by
  constructor
  · obtain ⟨out, hrun, _, hval⟩ := findEdges_run input output width height hin hout
    refine ⟨out, hrun, ?_⟩
    have h0 := hval 0 0 (by omega) (by omega)
    simp only [Nat.zero_mul, Nat.add_zero, Nat.cast_zero] at h0
    rw [h0, edgeByte_eq input width height 0 0 hbytes]
    have cm : clampCoord (0 - 1) (width : Int) = 0 := by unfold clampCoord; omega
    have c0 : clampCoord 0 (width : Int) = 0 := by unfold clampCoord; omega
    have c1 : clampCoord (0 + 1) (width : Int) = 1 := by unfold clampCoord; omega
    have rm : clampCoord (0 - 1) (height : Int) = 0 := by unfold clampCoord; omega
    have r0 : clampCoord 0 (height : Int) = 0 := by unfold clampCoord; omega
    have r1 : clampCoord (0 + 1) (height : Int) = 1 := by unfold clampCoord; omega
    have hp := clampedPixel_eq_pixelAt input width height
    congr 2
    · unfold sobelGx weightedSumX
      rw [hp _ _ _ _ cm rm, hp _ _ _ _ c0 rm, hp _ _ _ _ c1 rm, hp _ _ _ _ cm r0,
        hp _ _ _ _ c0 r0, hp _ _ _ _ c1 r0, hp _ _ _ _ cm r1, hp _ _ _ _ c0 r1,
        hp _ _ _ _ c1 r1]
      ring
    · unfold sobelGy weightedSumY
      rw [hp _ _ _ _ cm rm, hp _ _ _ _ c0 rm, hp _ _ _ _ c1 rm, hp _ _ _ _ cm r0,
        hp _ _ _ _ c0 r0, hp _ _ _ _ c1 r0, hp _ _ _ _ cm r1, hp _ _ _ _ c0 r1,
        hp _ _ _ _ c1 r1]
      ring
  · have hu := findEdges_uniform_zero_aux 2 2 100 [0, 0, 0, 0] (by decide) (by decide)
      (by decide)
    refine ⟨_, hu, by decide, ?_⟩
    have hx : weightedSumX (zeroPaddedPixel [100, 100, 100, 100] 2 2) 0 0 = 300 := by decide
    have hy : weightedSumY (zeroPaddedPixel [100, 100, 100, 100] 2 2) 0 0 = 300 := by decide
    unfold zeroPaddedCorner gradientMagnitude
    rw [hx, hy]
    have e : ((300 : Int) * 300 + 300 * 300).toNat = 180000 := by decide
    rw [e]
    have : 255 ≤ Nat.sqrt 180000 := Nat.le_sqrt.2 (by norm_num)
    omega

theorem findEdges_corner_replicate_witness :
    (∃ out, findEdges [10, 20, 30, 40] [7, 7, 7, 7] (2 : Nat) (2 : Nat) = some out
      ∧ out[0]? = some (gradientMagnitude
          (3 * (pixelAt [10, 20, 30, 40] (2 : Nat) 1 0 - pixelAt [10, 20, 30, 40] (2 : Nat) 0 0)
            + (pixelAt [10, 20, 30, 40] (2 : Nat) 1 1 - pixelAt [10, 20, 30, 40] (2 : Nat) 0 1))
          (3 * (pixelAt [10, 20, 30, 40] (2 : Nat) 0 1 - pixelAt [10, 20, 30, 40] (2 : Nat) 0 0)
            + (pixelAt [10, 20, 30, 40] (2 : Nat) 1 1
              - pixelAt [10, 20, 30, 40] (2 : Nat) 1 0))))
    ∧ (∃ out, findEdges [100, 100, 100, 100] [0, 0, 0, 0] 2 2 = some out
      ∧ out[0]? = some 0 ∧ zeroPaddedCorner [100, 100, 100, 100] 2 2 = 255) :=
  findEdges_corner_replicate 2 2 [10, 20, 30, 40] [7, 7, 7, 7] (by decide) (by decide)
    (by decide) (by decide) (by decide)

theorem gradientMagnitude_saturates (gx gy : Int) :
    gradientMagnitude gx gy ≤ 255
      ∧ (gradientMagnitude gx gy = 255 ↔ 65025 ≤ gx * gx + gy * gy) := by
  unfold gradientMagnitude
  have hsq : 255 ≤ Nat.sqrt (gx * gx + gy * gy).toNat ↔ 65025 ≤ gx * gx + gy * gy := by
    rw [Nat.le_sqrt]
    omega
  constructor
  · omega
  · rw [← hsq]
    omega

/-- C6: for every input buffer of bytes and every pixel (x, y) with 0 <= x < width and
0 <= y < height, findEdges returns normally and the byte it stores at output[y*width + x] is
min(255, floor(sqrt(Gx^2 + Gy^2))), where Gx and Gy are the sums of the clamped 3x3
neighbourhood weighted by the two kernels; the stored value is in 0..255 and equals 255
exactly when Gx^2 + Gy^2 >= 65025. -/
theorem findEdges_stores_magnitude (width height : Nat) (input output : List Nat)
    (hin : input.length = width * height) (hout : output.length = width * height)
    (hbytes : ∀ v ∈ input, v ≤ 255) :
    ∃ out, findEdges input output width height = some out
      ∧ out.length = width * height
      ∧ ∀ x y : Nat, x < width → y < height →
        out[y * width + x]? = some (min 255 (Nat.sqrt
            (sobelGx input width height x y * sobelGx input width height x y
              + sobelGy input width height x y * sobelGy input width height x y).toNat))
          ∧ min 255 (Nat.sqrt
            (sobelGx input width height x y * sobelGx input width height x y
              + sobelGy input width height x y * sobelGy input width height x y).toNat) ≤ 255
          ∧ (min 255 (Nat.sqrt
              (sobelGx input width height x y * sobelGx input width height x y
                + sobelGy input width height x y * sobelGy input width height x y).toNat) = 255
            ↔ 65025 ≤ sobelGx input width height x y * sobelGx input width height x y
              + sobelGy input width height x y * sobelGy input width height x y) := by
  obtain ⟨out, hrun, hlen, hval⟩ := findEdges_run input output width height hin hout
  refine ⟨out, hrun, hlen, ?_⟩
  intro x y hx hy
  have hs := gradientMagnitude_saturates (sobelGx input width height x y)
    (sobelGy input width height x y)
  unfold gradientMagnitude at hs
  refine ⟨?_, hs.1, hs.2⟩
  rw [hval x y hx hy, edgeByte_eq input width height x y hbytes]
  rfl

theorem findEdges_stores_magnitude_witness :
    ∃ out, findEdges [10, 20, 30, 40] [7, 7, 7, 7] (2 : Nat) (2 : Nat) = some out
      ∧ out.length = 2 * 2
      ∧ ∀ x y : Nat, x < 2 → y < 2 →
        out[y * 2 + x]? = some (min 255 (Nat.sqrt
            (sobelGx [10, 20, 30, 40] (2 : Nat) (2 : Nat) x y
                * sobelGx [10, 20, 30, 40] (2 : Nat) (2 : Nat) x y
              + sobelGy [10, 20, 30, 40] (2 : Nat) (2 : Nat) x y
                * sobelGy [10, 20, 30, 40] (2 : Nat) (2 : Nat) x y).toNat))
          ∧ min 255 (Nat.sqrt
            (sobelGx [10, 20, 30, 40] (2 : Nat) (2 : Nat) x y
                * sobelGx [10, 20, 30, 40] (2 : Nat) (2 : Nat) x y
              + sobelGy [10, 20, 30, 40] (2 : Nat) (2 : Nat) x y
                * sobelGy [10, 20, 30, 40] (2 : Nat) (2 : Nat) x y).toNat) ≤ 255
          ∧ (min 255 (Nat.sqrt
              (sobelGx [10, 20, 30, 40] (2 : Nat) (2 : Nat) x y
                  * sobelGx [10, 20, 30, 40] (2 : Nat) (2 : Nat) x y
                + sobelGy [10, 20, 30, 40] (2 : Nat) (2 : Nat) x y
                  * sobelGy [10, 20, 30, 40] (2 : Nat) (2 : Nat) x y).toNat) = 255
            ↔ 65025 ≤ sobelGx [10, 20, 30, 40] (2 : Nat) (2 : Nat) x y
                * sobelGx [10, 20, 30, 40] (2 : Nat) (2 : Nat) x y
              + sobelGy [10, 20, 30, 40] (2 : Nat) (2 : Nat) x y
                * sobelGy [10, 20, 30, 40] (2 : Nat) (2 : Nat) x y) :=
  findEdges_stores_magnitude 2 2 [10, 20, 30, 40] [7, 7, 7, 7] (by decide) (by decide)
    (by decide)

/-! ## Header validation -/

theorem leField_two (file : List Nat) (pos : Nat) :
    leField file pos 2 = file.getD pos 0 + 256 * file.getD (pos + 1) 0 := by
  simp [leField, List.range_succ]
  ring

/-- C7: header validation rejects in a fixed precedence and with exit status 1, for every pair
of parsed headers: the signature error is returned exactly when type != 0x4D42 (for a header
read from a file: exactly when the first two bytes are not 0x42, 0x4D), whatever the other
fields are; the bit-depth error exactly when the signature is right and bitCount != 24; the
dimension error exactly when signature and bit depth are right and width or height differs
from the expected one; otherwise validation passes. The expected dimensions are 630 x 630
in Grey+MEM and 1247 x 720 in Sobel_Filter. -/
theorem validateHeaders_precedence (W H : Nat) (fh : BMPFileHeader) (ih : BMPInfoHeader) :
    (validateHeaders W H fh ih = some (HeaderError.invalidSignature, 1) ↔ fh.type ≠ 0x4D42)
    ∧ (validateHeaders W H fh ih = some (HeaderError.not24Bit, 1)
        ↔ fh.type = 0x4D42 ∧ ih.bitCount ≠ 24)
    ∧ (validateHeaders W H fh ih = some (HeaderError.wrongSize, 1)
        ↔ fh.type = 0x4D42 ∧ ih.bitCount = 24 ∧ (ih.width ≠ W ∨ ih.height ≠ H))
    ∧ (validateHeaders W H fh ih = none
        ↔ fh.type = 0x4D42 ∧ ih.bitCount = 24 ∧ ih.width = W ∧ ih.height = H)
    ∧ (∀ e status, validateHeaders W H fh ih = some (e, status) → status = 1)
    ∧ (GreyMEM.IMAGE_WIDTH = 630 ∧ GreyMEM.IMAGE_HEIGHT = 630
        ∧ SobelFilter.IMAGE_WIDTH = 1247 ∧ SobelFilter.IMAGE_HEIGHT = 720)
    ∧ (∀ file : List Nat, (∀ b ∈ file, b < 256) → readFileHeader file = some fh →
        (fh.type ≠ 0x4D42 ↔ ¬ (file[0]? = some 0x42 ∧ file[1]? = some 0x4D))) := by
  refine ⟨?_, ?_, ?_, ?_, ?_, ⟨rfl, rfl, rfl, rfl⟩, ?_⟩
  · unfold validateHeaders
    split_ifs <;> simp_all
  · unfold validateHeaders
    split_ifs <;> simp_all
  · unfold validateHeaders
    split_ifs <;> simp_all
  · unfold validateHeaders
    split_ifs with h1 h2 h3
    · simp_all
    · simp_all
    · simp only [false_iff, not_and, reduceCtorEq]
      intro _ _ hw hh
      rcases h3 with h3 | h3
      · exact h3 hw
      · exact h3 hh
    · simp_all
  · intro e status h
    unfold validateHeaders at h
    split at h
    · cases h; rfl
    · split at h
      · cases h; rfl
      · split at h
        · cases h; rfl
        · cases h
  · intro file hbytes hread
    unfold readFileHeader at hread
    split at hread
    · rename_i hlen
      cases hread
      simp only [leField_two]
      have h0 : file[0]? = some (file.getD 0 0) := by
        rw [List.getD_eq_getElem?_getD, List.getElem?_eq_getElem (by omega)]; rfl
      have h1 : file[1]? = some (file.getD 1 0) := by
        rw [List.getD_eq_getElem?_getD, List.getElem?_eq_getElem (by omega)]; rfl
      have b0 := hbytes _ (List.getElem?_mem h0)
      have b1 := hbytes _ (List.getElem?_mem h1)
      rw [h0, h1]
      simp only [Option.some.injEq, Nat.zero_add, ne_eq]
      omega
    · cases hread

/-! ## The pixel decoder -/

theorem getElem?_getD_of_lt (file : List Nat) (p : Nat) (h : p < file.length) :
    file[p]? = some (file.getD p 0) := by
  rw [List.getD_eq_getElem?_getD, List.getElem?_eq_getElem h]
  rfl

theorem readPixel_eq (file : List Nat) (st : DecodeState) (idx : Nat)
    (hpos : st.pos + 3 ≤ file.length) (hidx : idx < st.imageData.length) :
    readPixel file st idx
      = some { imageData := st.imageData.set idx (rgbAt file st.pos), pos := st.pos + 3 } := by
  unfold readPixel
  rw [getElem?_getD_of_lt file st.pos (by omega), getElem?_getD_of_lt file (st.pos + 1) (by omega),
    getElem?_getD_of_lt file (st.pos + 2) (by omega)]
  simp only [hidx, if_true]
  rfl

theorem decodeColumns_eq (file : List Nat) (W y : Nat) (n : Nat) :
    ∀ st : DecodeState, n ≤ W → st.pos + 3 * n ≤ file.length →
      y * W + W ≤ st.imageData.length →
      (List.range n).foldlM (fun st x => readPixel file st (y * W + x)) st
        = some { imageData := (List.range n).foldl
                    (fun im x => im.set (y * W + x) (rgbAt file (st.pos + 3 * x))) st.imageData,
                 pos := st.pos + 3 * n } := by
  induction n with
  | zero => intro st _ _ _; rfl
  | succ n ih =>
    intro st hn hpos hlen
    rw [List.range_succ, List.foldlM_append, ih st (by omega) (by omega) hlen]
    simp only [Option.bind_eq_bind, Option.some_bind, List.foldlM_cons, List.foldlM_nil,
      List.foldl_append, List.foldl_cons, List.foldl_nil]
    rw [readPixel_eq _ _ _ (by simp only []; omega)
      (by simp only [foldl_set_length]; omega)]
    simp only [Option.some_bind, Option.pure_def, Option.some.injEq, DecodeState.mk.injEq,
      true_and]
    ring

theorem decodeRow_eq (file : List Nat) (W y : Nat) (st : DecodeState)
    (hpos : st.pos + 3 * W ≤ file.length) (hlen : y * W + W ≤ st.imageData.length) :
    decodeRow file W st y
      = some { imageData := (List.range W).foldl
                  (fun im x => im.set (y * W + x) (rgbAt file (st.pos + 3 * x))) st.imageData,
               pos := st.pos + rowSize W } := by
  unfold decodeRow
  rw [decodeColumns_eq file W y W st (le_refl _) hpos hlen]
  simp only [Option.bind_eq_bind, Option.some_bind, Option.pure_def, Option.some.injEq,
    DecodeState.mk.injEq, rowSize, true_and]
  ring

theorem foldl_congr_mem {α β : Type} (f g : β → α → β) (l : List α)
    (h : ∀ b, ∀ a ∈ l, f b a = g b a) : ∀ b, l.foldl f b = l.foldl g b := by
  induction l with
  | nil => intro b; rfl
  | cons a l ih =>
    intro b
    simp only [List.foldl_cons]
    rw [h b a (List.mem_cons_self _ _)]
    exact ih (fun b a ha => h b a (List.mem_cons_of_mem _ ha)) _

theorem range_succ_reverse (n : Nat) :
    (List.range (n + 1)).reverse = n :: (List.range n).reverse := by
  rw [List.range_succ, List.reverse_append]
  rfl

theorem decodeRows_eq (file : List Nat) (W H : Nat) (n : Nat) :
    ∀ st : DecodeState, n ≤ H → st.imageData.length = W * H →
      st.pos + n * rowSize W ≤ file.length + padding W →
      (List.range n).reverse.foldlM (decodeRow file W) st
        = some { imageData := (List.range n).reverse.foldl
                    (fun im y => (List.range W).foldl
                      (fun im x => im.set (y * W + x)
                        (rgbAt file (st.pos + (n - 1 - y) * rowSize W + 3 * x))) im)
                    st.imageData,
                 pos := st.pos + n * rowSize W } := by
  induction n with
  | zero => intro st _ _ _; simp
  | succ n ih =>
    intro st hn hlen hpos
    have hrow : (n + 1) * rowSize W = n * rowSize W + (W * 3 + padding W) := by
      unfold rowSize; ring
    have hidx : n * W + W ≤ st.imageData.length := by
      rw [hlen]
      have : (n + 1) * W ≤ H * W := Nat.mul_le_mul_right _ hn
      have e1 : (n + 1) * W = n * W + W := by ring
      have e2 : H * W = W * H := Nat.mul_comm _ _
      omega
    rw [range_succ_reverse, List.foldlM_cons, decodeRow_eq file W n st (by omega) hidx]
    simp only [Option.bind_eq_bind, Option.some_bind, List.foldl_cons]
    rw [ih _ (by omega) (by simp only [foldl_set_length]; exact hlen)
      (by simp only []; unfold rowSize at *; omega)]
    simp only [Option.some.injEq, DecodeState.mk.injEq]
    constructor
    · have e0 : n + 1 - 1 - n = 0 := by omega
      simp only [e0, Nat.zero_mul, Nat.add_zero]
      apply foldl_congr_mem
      intro im y hy
      have hy2 : y < n := by simpa using hy
      apply foldl_congr_mem
      intro im2 x _
      have : st.pos + rowSize W + (n - 1 - y) * rowSize W
          = st.pos + (n + 1 - 1 - y) * rowSize W := by
        have e : n + 1 - 1 - y = (n - 1 - y) + 1 := by omega
        rw [e]; ring
      rw [this]
    · ring

/-- C8: decoding reconstructs a top-to-bottom buffer from the bottom-up file. For every file
that holds the pixel rows announced by the header (the padding of the last row may be
missing) and every (x, y) with 0 <= x < width, 0 <= y < height, the decoder returns normally
and the BGR triple stored at imageData[y*width + x] is the three bytes found in the file at
position offset + (height-1-y)*rowSize + 3*x, with rowSize = width*3 + padding; equivalently
file row f lands in buffer row height-1-f; the bytes stored lie in the first width*3 bytes of
their file row, so no padding byte is stored. -/
theorem decodePixels_bottom_up (file : List Nat) (offset W H : Nat) (imageData : List RGB)
    (hbuf : imageData.length = W * H)
    (hfile : offset + H * rowSize W ≤ file.length + padding W) :
    ∃ img, decodePixels file offset W H imageData = some img
      ∧ img.length = W * H
      ∧ (∀ x y : Nat, x < W → y < H →
          img[y * W + x]? = some (rgbAt file (offset + (H - 1 - y) * rowSize W + 3 * x)))
      ∧ (∀ x f : Nat, x < W → f < H →
          img[(H - 1 - f) * W + x]? = some (rgbAt file (offset + f * rowSize W + 3 * x)))
      ∧ (∀ x j : Nat, x < W → j < 3 → 3 * x + j < W * 3)
      ∧ rowSize W = W * 3 + padding W := by
  have hrows := decodeRows_eq file W H H { imageData := imageData, pos := offset } (le_refl _)
    hbuf hfile
  have hgrid : ∀ x y : Nat, x < W → y < H →
      ((List.range H).reverse.foldl
        (fun im y => (List.range W).foldl
          (fun im x => im.set (y * W + x)
            (rgbAt file (offset + (H - 1 - y) * rowSize W + 3 * x))) im)
        imageData)[y * W + x]?
        = some (rgbAt file (offset + (H - 1 - y) * rowSize W + 3 * x)) := by
    intro x y hx hy
    exact fill_grid W H (fun x y => rgbAt file (offset + (H - 1 - y) * rowSize W + 3 * x))
      (List.range H).reverse imageData (fun y => by simp) hbuf x y hx hy
  refine ⟨_, ?_, ?_, hgrid, ?_, ?_, rfl⟩
  · unfold decodePixels
    rw [hrows]
    rfl
  · have hn := foldl_nested
      (fun (o : List RGB) (a : Nat × Nat) =>
        o.set (a.1 * W + a.2) (rgbAt file (offset + (H - 1 - a.1) * rowSize W + 3 * a.2)))
      (List.range H).reverse (List.range W) imageData
    simp only [] at hn
    rw [hn, foldl_set_length]
    exact hbuf
  · intro x f hx hf
    have := hgrid x (H - 1 - f) hx (by omega)
    have e : H - 1 - (H - 1 - f) = f := by omega
    rw [e] at this
    exact this
  · intro x j hx hj
    omega

theorem decodePixels_bottom_up_witness :
    ∃ img, decodePixels [9, 9, 1, 2, 3, 4, 5, 6, 0, 0, 7, 8, 9, 10, 11, 12] 2 2 2
        [⟨0, 0, 0⟩, ⟨0, 0, 0⟩, ⟨0, 0, 0⟩, ⟨0, 0, 0⟩] = some img
      ∧ img.length = 2 * 2
      ∧ (∀ x y : Nat, x < 2 → y < 2 →
          img[y * 2 + x]? = some (rgbAt [9, 9, 1, 2, 3, 4, 5, 6, 0, 0, 7, 8, 9, 10, 11, 12]
            (2 + (2 - 1 - y) * rowSize 2 + 3 * x)))
      ∧ (∀ x f : Nat, x < 2 → f < 2 →
          img[(2 - 1 - f) * 2 + x]? = some (rgbAt [9, 9, 1, 2, 3, 4, 5, 6, 0, 0, 7, 8, 9, 10, 11, 12]
            (2 + f * rowSize 2 + 3 * x)))
      ∧ (∀ x j : Nat, x < 2 → j < 3 → 3 * x + j < 2 * 3)
      ∧ rowSize 2 = 2 * 3 + padding 2 :=
  decodePixels_bottom_up [9, 9, 1, 2, 3, 4, 5, 6, 0, 0, 7, 8, 9, 10, 11, 12] 2 2 2
    [⟨0, 0, 0⟩, ⟨0, 0, 0⟩, ⟨0, 0, 0⟩, ⟨0, 0, 0⟩] (by decide) (by decide)

/-! ## The encoder -/

/-- C9: for every validated input header pair (and image sizes whose file size fits the
32-bit field, as both compiled-in sizes do), the output headers have pixel-data offset
14 + 40 + 1024 = 1078, file size 1078 + newRowSize*height, bitCount 8, sizeImage
newRowSize*height and clrUsed = clrImportant = 256, where newRowSize = width +
(4 - width mod 4) mod 4; every other field equals the one of the input. For Grey+MEM this
gives sizeImage 398160 and file size 399238, for Sobel_Filter 898560 and 899638. -/
theorem outputHeaders_fields (W H : Nat) (fh : BMPFileHeader) (ih : BMPInfoHeader)
    (hvalid : validateHeaders W H fh ih = none)
    (hfits : 1078 + (W + (4 - W % 4) % 4) * H < 2 ^ 32) :
    ((outputHeaders W H fh ih).1.offset = 1078
      ∧ ((outputHeaders W H fh ih).1.size : Int)
          = 1078 + (ih.width + (4 - ih.width % 4) % 4) * ih.height
      ∧ (outputHeaders W H fh ih).2.bitCount = 8
      ∧ ((outputHeaders W H fh ih).2.sizeImage : Int)
          = (ih.width + (4 - ih.width % 4) % 4) * ih.height
      ∧ (outputHeaders W H fh ih).2.clrUsed = 256
      ∧ (outputHeaders W H fh ih).2.clrImportant = 256)
    ∧ ((outputHeaders W H fh ih).1.type = fh.type
      ∧ (outputHeaders W H fh ih).1.reserved1 = fh.reserved1
      ∧ (outputHeaders W H fh ih).1.reserved2 = fh.reserved2
      ∧ (outputHeaders W H fh ih).2.size = ih.size
      ∧ (outputHeaders W H fh ih).2.width = ih.width
      ∧ (outputHeaders W H fh ih).2.height = ih.height
      ∧ (outputHeaders W H fh ih).2.planes = ih.planes
      ∧ (outputHeaders W H fh ih).2.compression = ih.compression
      ∧ (outputHeaders W H fh ih).2.xPelsPerMeter = ih.xPelsPerMeter
      ∧ (outputHeaders W H fh ih).2.yPelsPerMeter = ih.yPelsPerMeter)
    ∧ ((outputHeaders GreyMEM.IMAGE_WIDTH GreyMEM.IMAGE_HEIGHT fh ih).2.sizeImage = 398160
      ∧ (outputHeaders GreyMEM.IMAGE_WIDTH GreyMEM.IMAGE_HEIGHT fh ih).1.size = 399238
      ∧ (outputHeaders SobelFilter.IMAGE_WIDTH SobelFilter.IMAGE_HEIGHT fh ih).2.sizeImage
          = 898560
      ∧ (outputHeaders SobelFilter.IMAGE_WIDTH SobelFilter.IMAGE_HEIGHT fh ih).1.size
          = 899638) := by
  have hv : ih.width = W ∧ ih.height = H := by
    unfold validateHeaders at hvalid
    split_ifs at hvalid with h1 h2 h3
    constructor
    · by_contra hw; exact h3 (Or.inl hw)
    · by_contra hh; exact h3 (Or.inr hh)
  have hsize : (W + (4 - W % 4) % 4) * H < 2 ^ 32 := by omega
  refine ⟨⟨rfl, ?_, rfl, ?_, rfl, rfl⟩, ⟨rfl, rfl, rfl, rfl, rfl, rfl, rfl, rfl, rfl, rfl⟩,
    ⟨rfl, rfl, rfl, rfl⟩⟩
  · simp only [outputHeaders, paletteSize, newRowSize, newPadding]
    rw [hv.1, hv.2, Nat.mod_eq_of_lt (by omega)]
    push_cast
    have : ((4 - W % 4 : Nat) : Int) = 4 - (W : Int) % 4 := by omega
    rw [this]
  · simp only [outputHeaders, paletteSize, newRowSize, newPadding]
    rw [hv.1, hv.2, Nat.mod_eq_of_lt hsize]
    push_cast
    have : ((4 - W % 4 : Nat) : Int) = 4 - (W : Int) % 4 := by omega
    rw [this]

theorem outputHeaders_fields_witness :
    ((outputHeaders 630 630 ⟨0x4D42, 1190754, 0, 0, 54⟩
          ⟨40, 630, 630, 1, 24, 0, 1190700, 2835, 2835, 0, 0⟩).1.offset = 1078
      ∧ ((outputHeaders 630 630 ⟨0x4D42, 1190754, 0, 0, 54⟩
          ⟨40, 630, 630, 1, 24, 0, 1190700, 2835, 2835, 0, 0⟩).1.size : Int)
          = 1078 + ((630 : Int) + (4 - (630 : Int) % 4) % 4) * (630 : Int)
      ∧ (outputHeaders 630 630 ⟨0x4D42, 1190754, 0, 0, 54⟩
          ⟨40, 630, 630, 1, 24, 0, 1190700, 2835, 2835, 0, 0⟩).2.bitCount = 8
      ∧ ((outputHeaders 630 630 ⟨0x4D42, 1190754, 0, 0, 54⟩
          ⟨40, 630, 630, 1, 24, 0, 1190700, 2835, 2835, 0, 0⟩).2.sizeImage : Int)
          = ((630 : Int) + (4 - (630 : Int) % 4) % 4) * (630 : Int)
      ∧ (outputHeaders 630 630 ⟨0x4D42, 1190754, 0, 0, 54⟩
          ⟨40, 630, 630, 1, 24, 0, 1190700, 2835, 2835, 0, 0⟩).2.clrUsed = 256
      ∧ (outputHeaders 630 630 ⟨0x4D42, 1190754, 0, 0, 54⟩
          ⟨40, 630, 630, 1, 24, 0, 1190700, 2835, 2835, 0, 0⟩).2.clrImportant = 256) :=
  (outputHeaders_fields 630 630 ⟨0x4D42, 1190754, 0, 0, 54⟩
    ⟨40, 630, 630, 1, 24, 0, 1190700, 2835, 2835, 0, 0⟩ (by decide) (by decide)).1

theorem leBytes_length (k n : Nat) : (leBytes k n).length = k := by
  simp [leBytes]

theorem fileHeaderBytes_length (h : BMPFileHeader) : (fileHeaderBytes h).length = 14 := by
  simp [fileHeaderBytes, leBytes_length]

theorem infoHeaderBytes_length (h : BMPInfoHeader) : (infoHeaderBytes h).length = 40 := by
  simp [infoHeaderBytes, leBytes_length]

theorem palette_length_aux (n : Nat) (file : List Nat) :
    ((List.range n).foldl (fun f i => f ++ [i % 256, i % 256, i % 256, 0]) file).length
      = file.length + 4 * n := by
  induction n with
  | zero => rfl
  | succ n ih =>
    rw [List.range_succ, List.foldl_append]
    simp only [List.foldl_cons, List.foldl_nil, List.length_append, ih, List.length_cons,
      List.length_nil]
    omega

theorem writePalette_length (file : List Nat) :
    (writePalette file).length = file.length + 1024 := by
  unfold writePalette
  rw [palette_length_aux]

theorem newPadding_lt (W : Nat) : newPadding W < 4 := by
  unfold newPadding
  omega

theorem paddingBytes_take (p : Nat) (hp : p < 4) : paddingBytes.take p = List.replicate p 0 := by
  interval_cases p <;> rfl

theorem writeColumns_eq (data : List Nat) (W y : Nat) (n : Nat) :
    ∀ file : List Nat, n ≤ W → y * W + W ≤ data.length →
      (List.range n).foldlM
        (fun f x => do
          let v ← data[y * W + x]?
          pure (f ++ [v])) file
        = some (file ++ (List.range n).map (fun x => data.getD (y * W + x) 0)) := by
  induction n with
  | zero => intro file _ _; simp
  | succ n ih =>
    intro file hn hlen
    rw [List.range_succ, List.foldlM_append, ih file (by omega) hlen]
    simp only [Option.bind_eq_bind, Option.some_bind, List.foldlM_cons, List.foldlM_nil,
      List.map_append, List.map_cons, List.map_nil]
    rw [getElem?_getD_of_lt data (y * W + n) (by omega)]
    simp

theorem writeRow_eq (data : List Nat) (W y : Nat) (file : List Nat)
    (hlen : y * W + W ≤ data.length) :
    writeRow data W file y
      = some (file ++ ((List.range W).map (fun x => data.getD (y * W + x) 0)
          ++ List.replicate (newPadding W) 0)) := by
  unfold writeRow
  rw [writeColumns_eq data W y W file (le_refl _) hlen]
  simp only [Option.bind_eq_bind, Option.some_bind, Option.pure_def, Option.some.injEq]
  rw [paddingBytes_take _ (newPadding_lt W)]
  split
  · rw [List.append_assoc]
  · rename_i h
    have : newPadding W = 0 := by omega
    rw [this]
    simp

theorem rowBytes_pixel (data : List Nat) (W y x : Nat) (hx : x < W)
    (hlen : y * W + W ≤ data.length) :
    ((List.range W).map (fun x => data.getD (y * W + x) 0)
      ++ List.replicate (newPadding W) 0)[x]? = data[y * W + x]? := by
  rw [List.getElem?_append_left (by simpa using hx), List.getElem?_map,
    List.getElem?_range hx, getElem?_getD_of_lt data (y * W + x) (by omega)]
  rfl

theorem rowBytes_padding (data : List Nat) (W y j : Nat) (hj : j < newPadding W) :
    ((List.range W).map (fun x => data.getD (y * W + x) 0)
      ++ List.replicate (newPadding W) 0)[W + j]? = some 0 := by
  rw [List.getElem?_append_right (by simp)]
  simp only [List.length_map, List.length_range, Nat.add_sub_cancel_left]
  exact List.getElem?_replicate_of_lt hj

theorem rowBytes_length (data : List Nat) (W y : Nat) :
    ((List.range W).map (fun x => data.getD (y * W + x) 0)
      ++ List.replicate (newPadding W) 0).length = newRowSize W := by
  simp [newRowSize]

theorem writeRows_aux (data : List Nat) (W H : Nat) (hdata : data.length = W * H) (n : Nat) :
    ∀ file : List Nat, n ≤ H →
      ∃ tail, (List.range n).reverse.foldlM (writeRow data W) file = some (file ++ tail)
        ∧ tail.length = n * newRowSize W
        ∧ (∀ x y : Nat, x < W → y < n →
            tail[(n - 1 - y) * newRowSize W + x]? = data[y * W + x]?)
        ∧ (∀ y j : Nat, y < n → j < newPadding W →
            tail[(n - 1 - y) * newRowSize W + W + j]? = some 0) := by
  induction n with
  | zero =>
    intro file _
    exact ⟨[], by simp, by simp, fun _ y _ hy => absurd hy (Nat.not_lt_zero y),
      fun y _ hy _ => absurd hy (Nat.not_lt_zero y)⟩
  | succ n ih =>
    intro file hn
    have hidx : ∀ y, y ≤ n → y * W + W ≤ data.length := by
      intro y hy
      rw [hdata]
      have : (y + 1) * W ≤ H * W := Nat.mul_le_mul_right _ (by omega)
      have e1 : (y + 1) * W = y * W + W := by ring
      have e2 : H * W = W * H := Nat.mul_comm _ _
      omega
    obtain ⟨tail, hrun, hlen, hpix, hpad⟩ := ih
      (file ++ ((List.range W).map (fun x => data.getD (n * W + x) 0)
        ++ List.replicate (newPadding W) 0)) (by omega)
    refine ⟨((List.range W).map (fun x => data.getD (n * W + x) 0)
        ++ List.replicate (newPadding W) 0) ++ tail, ?_, ?_, ?_, ?_⟩
    · rw [range_succ_reverse, List.foldlM_cons, writeRow_eq data W n file (hidx n (le_refl _))]
      simp only [Option.bind_eq_bind, Option.some_bind]
      rw [hrun, List.append_assoc]
    · rw [List.length_append, rowBytes_length, hlen]
      ring
    · intro x y hx hy
      by_cases hyn : y = n
      · subst hyn
        have e : (y + 1 - 1 - y) * newRowSize W + x = x := by
          have : y + 1 - 1 - y = 0 := by omega
          rw [this]; omega
        rw [e, List.getElem?_append_left (by rw [rowBytes_length]; unfold newRowSize; omega)]
        exact rowBytes_pixel data W y x hx (hidx y (le_refl _))
      · have hy2 : y < n := by omega
        have e : (n + 1 - 1 - y) * newRowSize W + x
            = newRowSize W + ((n - 1 - y) * newRowSize W + x) := by
          have : n + 1 - 1 - y = (n - 1 - y) + 1 := by omega
          rw [this]; ring
        rw [e, List.getElem?_append_right (by rw [rowBytes_length]; omega), rowBytes_length,
          Nat.add_sub_cancel_left]
        exact hpix x y hx hy2
    · intro y j hy hj
      by_cases hyn : y = n
      · subst hyn
        have e : (y + 1 - 1 - y) * newRowSize W + W + j = W + j := by
          have : y + 1 - 1 - y = 0 := by omega
          rw [this]; omega
        rw [e, List.getElem?_append_left (by rw [rowBytes_length]; unfold newRowSize; omega)]
        exact rowBytes_padding data W y j hj
      · have hy2 : y < n := by omega
        have e : (n + 1 - 1 - y) * newRowSize W + W + j
            = newRowSize W + ((n - 1 - y) * newRowSize W + W + j) := by
          have : n + 1 - 1 - y = (n - 1 - y) + 1 := by omega
          rw [this]; ring
        rw [e, List.getElem?_append_right (by rw [rowBytes_length]; omega), rowBytes_length,
          Nat.add_sub_cancel_left]
        exact hpad y j hy2 hj

/-- C10: the encoder writes pixel rows bottom-to-top, the inverse of the decoder. For every
buffer of width*height bytes and every (x, y) with 0 <= x < width, 0 <= y < height, the
encoder returns normally and the byte of the output file at position
1078 + (height-1-y)*newRowSize + x is buffer[y*width + x]; each of the newPadding bytes that
follow the width pixel bytes of a row is 0; hence reading the pixel area back with the rule
buffer row = height-1-file row, skipping the padding, returns the buffer unchanged. -/
theorem encodeBMP_rows_bottom_up (W H : Nat) (fh : BMPFileHeader) (ih : BMPInfoHeader)
    (data : List Nat) (hdata : data.length = W * H) :
    ∃ file, encodeBMP W H fh ih data = some file
      ∧ file.length = 1078 + H * newRowSize W
      ∧ (∀ x y : Nat, x < W → y < H →
          ∃ v, data[y * W + x]? = some v
            ∧ file[1078 + (H - 1 - y) * newRowSize W + x]? = some v)
      ∧ (∀ y j : Nat, y < H → j < newPadding W →
          file[1078 + (H - 1 - y) * newRowSize W + W + j]? = some 0)
      ∧ readBackPixels file W H = data := by
  obtain ⟨tail, hrun, hlen, hpix, hpad⟩ := writeRows_aux data W H hdata H
    (writePalette (fileHeaderBytes (outputHeaders W H fh ih).1
      ++ infoHeaderBytes (outputHeaders W H fh ih).2)) (le_refl _)
  have hpre : (writePalette (fileHeaderBytes (outputHeaders W H fh ih).1
      ++ infoHeaderBytes (outputHeaders W H fh ih).2)).length = 1078 := by
    rw [writePalette_length, List.length_append, fileHeaderBytes_length, infoHeaderBytes_length]
  have hrun2 : encodeBMP W H fh ih data
      = some (writePalette (fileHeaderBytes (outputHeaders W H fh ih).1
        ++ infoHeaderBytes (outputHeaders W H fh ih).2) ++ tail) := by
    unfold encodeBMP writeRows
    exact hrun
  clear hrun
  generalize writePalette (fileHeaderBytes (outputHeaders W H fh ih).1
      ++ infoHeaderBytes (outputHeaders W H fh ih).2) = pre at hrun2 hpre
  have hat : ∀ k, (pre ++ tail)[1078 + k]? = tail[k]? := by
    intro k
    rw [List.getElem?_append_right (by omega), hpre, Nat.add_sub_cancel_left]
  have hfile : ∀ x y : Nat, x < W → y < H →
      (pre ++ tail)[1078 + (H - 1 - y) * newRowSize W + x]? = data[y * W + x]? := by
    intro x y hx hy
    rw [Nat.add_assoc, hat]
    exact hpix x y hx hy
  refine ⟨pre ++ tail, hrun2, ?_, ?_, ?_, ?_⟩
  · rw [List.length_append, hpre, hlen]
  · intro x y hx hy
    have hlt : y * W + x < data.length := by rw [hdata]; exact index_lt W H x y hx hy
    refine ⟨data.getD (y * W + x) 0, getElem?_getD_of_lt data _ hlt, ?_⟩
    rw [hfile x y hx hy]
    exact getElem?_getD_of_lt data _ hlt
  · intro y j hy hj
    rw [Nat.add_assoc, Nat.add_assoc, hat, ← Nat.add_assoc]
    exact hpad y j hy hj
  · apply List.ext_getElem?
    intro i
    unfold readBackPixels
    rw [List.getElem?_map]
    by_cases hi : i < W * H
    · have hx : i % W < W := Nat.mod_lt _ (by
        rcases Nat.eq_zero_or_pos W with h | h
        · subst h; simp at hi
        · exact h)
      have hy : i / W < H := index_div_lt W H i hi
      rw [List.getElem?_range hi]
      simp only [Option.map_some']
      rw [List.getD_eq_getElem?_getD, hfile (i % W) (i / W) hx hy, ← index_split W i,
        List.getElem?_eq_getElem (by omega)]
      rfl
    · rw [List.getElem?_eq_none (by simp; omega), List.getElem?_eq_none (by omega)]
      rfl

theorem encodeBMP_rows_bottom_up_witness :
    ∃ file, encodeBMP 3 2 ⟨0x4D42, 0, 0, 0, 54⟩ ⟨40, 3, 2, 1, 24, 0, 0, 0, 0, 0, 0⟩
        [1, 2, 3, 4, 5, 6] = some file
      ∧ file.length = 1078 + 2 * newRowSize 3
      ∧ (∀ x y : Nat, x < 3 → y < 2 →
          ∃ v, [1, 2, 3, 4, 5, 6][y * 3 + x]? = some v
            ∧ file[1078 + (2 - 1 - y) * newRowSize 3 + x]? = some v)
      ∧ (∀ y j : Nat, y < 2 → j < newPadding 3 →
          file[1078 + (2 - 1 - y) * newRowSize 3 + 3 + j]? = some 0)
      ∧ readBackPixels file 3 2 = [1, 2, 3, 4, 5, 6] :=
  encodeBMP_rows_bottom_up 3 2 ⟨0x4D42, 0, 0, 0, 54⟩ ⟨40, 3, 2, 1, 24, 0, 0, 0, 0, 0, 0⟩
    [1, 2, 3, 4, 5, 6] (by decide)

/-! ## The palette -/

theorem palette_fold_append (n : Nat) (file : List Nat) :
    (List.range n).foldl (fun f i => f ++ [i % 256, i % 256, i % 256, 0]) file
      = file ++ (List.range n).foldl (fun f i => f ++ [i % 256, i % 256, i % 256, 0]) [] := by
  induction n with
  | zero => simp
  | succ n ih =>
    rw [List.range_succ, List.foldl_append, List.foldl_append, ih]
    simp

theorem writePalette_append (file : List Nat) : writePalette file = file ++ writePalette [] :=
  palette_fold_append 256 file

theorem palette_fold_pair (n : Nat) (a b : List Nat) :
    (List.range n).foldl
      (fun (fs : List Nat × List Nat) i =>
        (fs.1 ++ [i % 256, i % 256, i % 256, 0], fs.2 ++ [i % 256, i % 256, i % 256, 0]))
      (a, b)
      = ((List.range n).foldl (fun f i => f ++ [i % 256, i % 256, i % 256, 0]) a,
         (List.range n).foldl (fun f i => f ++ [i % 256, i % 256, i % 256, 0]) b) := by
  induction n with
  | zero => rfl
  | succ n ih =>
    rw [List.range_succ, List.foldl_append, List.foldl_append, List.foldl_append, ih]
    rfl

theorem palette_fold_entries (n : Nat) :
    ∀ i, i < n →
      ((List.range n).foldl (fun f i => f ++ [i % 256, i % 256, i % 256, 0]) [])[4 * i]?
          = some (i % 256)
      ∧ ((List.range n).foldl (fun f i => f ++ [i % 256, i % 256, i % 256, 0]) [])[4 * i + 1]?
          = some (i % 256)
      ∧ ((List.range n).foldl (fun f i => f ++ [i % 256, i % 256, i % 256, 0]) [])[4 * i + 2]?
          = some (i % 256)
      ∧ ((List.range n).foldl (fun f i => f ++ [i % 256, i % 256, i % 256, 0]) [])[4 * i + 3]?
          = some 0 := by
  induction n with
  | zero => intro i hi; exact absurd hi (Nat.not_lt_zero i)
  | succ n ih =>
    intro i hi
    have hlen := palette_length_aux n []
    simp only [List.length_nil, Nat.zero_add] at hlen
    rw [List.range_succ, List.foldl_append]
    simp only [List.foldl_cons, List.foldl_nil]
    by_cases hin : i = n
    · subst hin
      refine ⟨?_, ?_, ?_, ?_⟩
      · rw [List.getElem?_append_right (by omega), hlen]
        simp
      · rw [List.getElem?_append_right (by omega), hlen]
        simp
      · rw [List.getElem?_append_right (by omega), hlen]
        simp
      · rw [List.getElem?_append_right (by omega), hlen]
        simp
    · have hi2 : i < n := by omega
      obtain ⟨h0, h1, h2, h3⟩ := ih i hi2
      refine ⟨?_, ?_, ?_, ?_⟩
      · rw [List.getElem?_append_left (by omega)]; exact h0
      · rw [List.getElem?_append_left (by omega)]; exact h1
      · rw [List.getElem?_append_left (by omega)]; exact h2
      · rw [List.getElem?_append_left (by omega)]; exact h3

theorem writePalette_nil_length : (writePalette []).length = 1024 := by
  rw [writePalette_length]
  rfl

theorem encodeBMP_shape (W H : Nat) (fh : BMPFileHeader) (ih : BMPInfoHeader)
    (data : List Nat) (hdata : data.length = W * H) :
    ∃ tail, encodeBMP W H fh ih data
        = some ((fileHeaderBytes (outputHeaders W H fh ih).1
            ++ infoHeaderBytes (outputHeaders W H fh ih).2) ++ writePalette [] ++ tail)
      ∧ tail.length = H * newRowSize W := by
  obtain ⟨tail, hrun, hlen, _, _⟩ := writeRows_aux data W H hdata H
    (writePalette (fileHeaderBytes (outputHeaders W H fh ih).1
      ++ infoHeaderBytes (outputHeaders W H fh ih).2)) (le_refl _)
  refine ⟨tail, ?_, hlen⟩
  unfold encodeBMP writeRows
  rw [← writePalette_append]
  exact hrun

theorem palette_of_shape_aux (hdr pal tail : List Nat) (hlen : hdr.length = 54)
    (hpl : pal.length = 1024)
    (hpal : ∀ i, i < 256 →
      pal[4 * i]? = some (i % 256) ∧ pal[4 * i + 1]? = some (i % 256)
      ∧ pal[4 * i + 2]? = some (i % 256) ∧ pal[4 * i + 3]? = some 0) :
    (∀ i, i < 256 →
        (hdr ++ pal ++ tail)[54 + 4 * i]? = some i
        ∧ (hdr ++ pal ++ tail)[54 + 4 * i + 1]? = some i
        ∧ (hdr ++ pal ++ tail)[54 + 4 * i + 2]? = some i
        ∧ (hdr ++ pal ++ tail)[54 + 4 * i + 3]? = some 0)
    ∧ readPalette (hdr ++ pal ++ tail) = (List.range 256).map (fun i => (i, i, i))
    ∧ paletteArea (hdr ++ pal ++ tail) = pal := by
  have hent : ∀ i, i < 256 → ∀ c, c < 4 →
      (hdr ++ pal ++ tail)[54 + 4 * i + c]? = pal[4 * i + c]? := by
    intro i hi c hc
    have e : 54 + 4 * i + c - 54 = 4 * i + c := by omega
    rw [List.append_assoc, List.getElem?_append_right (by omega), hlen,
      List.getElem?_append_left (by omega), e]
  have hall : ∀ i, i < 256 →
      (hdr ++ pal ++ tail)[54 + 4 * i]? = some i
      ∧ (hdr ++ pal ++ tail)[54 + 4 * i + 1]? = some i
      ∧ (hdr ++ pal ++ tail)[54 + 4 * i + 2]? = some i
      ∧ (hdr ++ pal ++ tail)[54 + 4 * i + 3]? = some 0 := by
    intro i hi
    obtain ⟨h0, h1, h2, h3⟩ := hpal i hi
    have hmod : i % 256 = i := Nat.mod_eq_of_lt hi
    rw [hmod] at h0 h1 h2
    have e0 := hent i hi 0 (by omega)
    rw [Nat.add_zero, Nat.add_zero] at e0
    exact ⟨e0.trans h0, (hent i hi 1 (by omega)).trans h1, (hent i hi 2 (by omega)).trans h2,
      (hent i hi 3 (by omega)).trans h3⟩
  refine ⟨hall, ?_, ?_⟩
  · unfold readPalette
    apply List.map_congr_left
    intro i hi
    obtain ⟨h0, h1, h2, _⟩ := hall i (List.mem_range.1 hi)
    simp only [List.getD_eq_getElem?_getD, h0, h1, h2, Option.getD_some]
  · unfold paletteArea
    rw [List.append_assoc, List.drop_left' hlen, List.take_left' hpl]

theorem palette_of_shape (hdr tail : List Nat) (hlen : hdr.length = 54) :
    (∀ i, i < 256 →
        (hdr ++ writePalette [] ++ tail)[54 + 4 * i]? = some i
        ∧ (hdr ++ writePalette [] ++ tail)[54 + 4 * i + 1]? = some i
        ∧ (hdr ++ writePalette [] ++ tail)[54 + 4 * i + 2]? = some i
        ∧ (hdr ++ writePalette [] ++ tail)[54 + 4 * i + 3]? = some 0)
    ∧ readPalette (hdr ++ writePalette [] ++ tail) = (List.range 256).map (fun i => (i, i, i))
    ∧ paletteArea (hdr ++ writePalette [] ++ tail) = writePalette [] :=
  palette_of_shape_aux hdr (writePalette []) tail hlen writePalette_nil_length
    (palette_fold_entries 256)

theorem writeGrayAndEdge_eq (W H : Nat) (fh : BMPFileHeader) (ih : BMPInfoHeader)
    (gray edge : List Nat) (out edgeFile : List Nat)
    (hout : encodeBMP W H fh ih gray = some out)
    (hedge : encodeBMP W H fh ih edge = some edgeFile) :
    writeGrayAndEdge W H fh ih gray edge = some (out, edgeFile) := by
  unfold encodeBMP writePalette at hout hedge
  unfold writeGrayAndEdge
  simp only [palette_fold_pair, hout, hedge, Option.bind_eq_bind, Option.some_bind,
    Option.pure_def]

/-- C11: in every 8-bit output file (the file encodeBMP produces, which is the grayscale
output of Grey+MEM, and both components of writeGrayAndEdge, the grayscale and the edge
output of Sobel_Filter) the 1024 bytes at positions 54..1077 are the palette: for every i in
0..255 the four bytes at 54 + 4*i are (i, i, i, 0), so decoding the palette yields the 256
entries (i, i, i) in increasing order of i; the palette area is the same byte string,
writePalette [], whatever the image, the headers and the program. -/
theorem palette_gray_ramp (W H : Nat) (fh : BMPFileHeader) (ih : BMPInfoHeader)
    (gray edge : List Nat) (hg : gray.length = W * H) (he : edge.length = W * H) :
    ∃ out edgeFile, encodeBMP W H fh ih gray = some out
      ∧ writeGrayAndEdge W H fh ih gray edge = some (out, edgeFile)
      ∧ (∀ i, i < 256 →
          (out[54 + 4 * i]? = some i ∧ out[54 + 4 * i + 1]? = some i
            ∧ out[54 + 4 * i + 2]? = some i ∧ out[54 + 4 * i + 3]? = some 0)
          ∧ (edgeFile[54 + 4 * i]? = some i ∧ edgeFile[54 + 4 * i + 1]? = some i
            ∧ edgeFile[54 + 4 * i + 2]? = some i ∧ edgeFile[54 + 4 * i + 3]? = some 0))
      ∧ readPalette out = (List.range 256).map (fun i => (i, i, i))
      ∧ readPalette edgeFile = (List.range 256).map (fun i => (i, i, i))
      ∧ paletteArea out = writePalette []
      ∧ paletteArea edgeFile = writePalette [] := by
  obtain ⟨t1, h1, _⟩ := encodeBMP_shape W H fh ih gray hg
  obtain ⟨t2, h2, _⟩ := encodeBMP_shape W H fh ih edge he
  have hlen : (fileHeaderBytes (outputHeaders W H fh ih).1
      ++ infoHeaderBytes (outputHeaders W H fh ih).2).length = 54 := by
    rw [List.length_append, fileHeaderBytes_length, infoHeaderBytes_length]
  have hw := writeGrayAndEdge_eq W H fh ih gray edge _ _ h1 h2
  generalize fileHeaderBytes (outputHeaders W H fh ih).1
      ++ infoHeaderBytes (outputHeaders W H fh ih).2 = hdr at h1 h2 hw hlen
  obtain ⟨a1, b1, c1⟩ := palette_of_shape hdr t1 hlen
  obtain ⟨a2, b2, c2⟩ := palette_of_shape hdr t2 hlen
  exact ⟨_, _, h1, hw, fun i hi => ⟨a1 i hi, a2 i hi⟩, b1, b2, c1, c2⟩

theorem palette_gray_ramp_witness :
    ∃ out edgeFile, encodeBMP 2 1 ⟨0x4D42, 0, 0, 0, 54⟩ ⟨40, 2, 1, 1, 24, 0, 0, 0, 0, 0, 0⟩
        [7, 9] = some out
      ∧ writeGrayAndEdge 2 1 ⟨0x4D42, 0, 0, 0, 54⟩ ⟨40, 2, 1, 1, 24, 0, 0, 0, 0, 0, 0⟩
        [7, 9] [0, 255] = some (out, edgeFile)
      ∧ (∀ i, i < 256 →
          (out[54 + 4 * i]? = some i ∧ out[54 + 4 * i + 1]? = some i
            ∧ out[54 + 4 * i + 2]? = some i ∧ out[54 + 4 * i + 3]? = some 0)
          ∧ (edgeFile[54 + 4 * i]? = some i ∧ edgeFile[54 + 4 * i + 1]? = some i
            ∧ edgeFile[54 + 4 * i + 2]? = some i ∧ edgeFile[54 + 4 * i + 3]? = some 0))
      ∧ readPalette out = (List.range 256).map (fun i => (i, i, i))
      ∧ readPalette edgeFile = (List.range 256).map (fun i => (i, i, i))
      ∧ paletteArea out = writePalette []
      ∧ paletteArea edgeFile = writePalette [] :=
  palette_gray_ramp 2 1 ⟨0x4D42, 0, 0, 0, 54⟩ ⟨40, 2, 1, 1, 24, 0, 0, 0, 0, 0, 0⟩
    [7, 9] [0, 255] (by decide) (by decide)

/-! ## The hex-memory export -/

theorem format02X_byte (v : Nat) (hv : v ≤ 255) :
    format02X v = [hexDigit (v / 16), hexDigit (v % 16)] := by
  unfold format02X
  by_cases h : v < 16
  · have e1 : hexDigitsAux (v + 1) v [] = [hexDigit v] := by
      unfold hexDigitsAux
      rw [if_pos h]
    have e2 : v / 16 = 0 := Nat.div_eq_of_lt h
    have e3 : v % 16 = v := Nat.mod_eq_of_lt h
    simp only [e1, e2, e3]
    rfl
  · obtain ⟨w, rfl⟩ : ∃ w, v = w + 1 := ⟨v - 1, by omega⟩
    have e1 : hexDigitsAux (w + 1 + 1) (w + 1) []
        = [hexDigit ((w + 1) / 16), hexDigit ((w + 1) % 16)] := by
      rw [hexDigitsAux, if_neg h, hexDigitsAux, if_pos (by omega)]
    simp only [e1]
    rfl

theorem hexDigit_ne_lf (d : Nat) : hexDigit d ≠ '\n' := by
  unfold hexDigit
  split <;> decide

theorem textModeBytes_hexRecord (v : Nat) : textModeBytes (hexRecord v) = fileRecord v := by
  simp [textModeBytes, hexRecord, fileRecord, hexDigit_ne_lf]

theorem writeMem_prefix (data : List Nat) (hbytes : ∀ v ∈ data, v ≤ 255) (n : Nat) :
    ∀ file : List Char, n ≤ data.length →
      writeMem data n file = some (file ++ (data.take n).flatMap fileRecord) := by
  induction n with
  | zero => intro file _; simp [writeMem]
  | succ n ih =>
    intro file hn
    have hlt : n < data.length := by omega
    have ih2 := ih file (by omega)
    unfold writeMem at ih2 ⊢
    rw [List.range_succ, List.foldlM_append, ih2]
    have hv := hbytes _ (List.getElem_mem hlt)
    have hrec : textModeBytes (format02X data[n] ++ ['\r', '\n']) = fileRecord data[n] := by
      rw [format02X_byte _ hv]
      exact textModeBytes_hexRecord data[n]
    simp only [Option.bind_eq_bind, Option.some_bind, List.foldlM_cons, List.foldlM_nil,
      List.getElem?_eq_getElem hlt, Option.pure_def, hrec]
    have e : data.take (n + 1) = data.take n ++ [data[n]] := by
      rw [List.take_succ, List.getElem?_eq_getElem hlt]
      rfl
    rw [e, List.flatMap_append, List.flatMap_singleton, List.append_assoc]

theorem fileRecords_length (data : List Nat) :
    (data.flatMap fileRecord).length = 5 * data.length := by
  induction data with
  | nil => rfl
  | cons v l ih =>
    rw [List.flatMap_cons, List.length_append, ih]
    simp only [fileRecord, List.length_cons, List.length_nil]
    omega

/-- C12 (the code at the failing input): for the buffer 10, 255, 0, 128 the MEM file holds
"0A\r\r\nFF\r\r\n00\r\r\n80\r\r\n" and not "0A\r\nFF\r\n00\r\n80\r\n". For every buffer of
n bytes the export is the concatenation, in buffer index order, of one record per pixel, but
the record in the file has five characters: the two uppercase hexadecimal digits, then the
text-stream image of carriage return, line feed, which is carriage return, carriage return,
line feed; the file has 5*n characters, not 4*n. -/
theorem writeMem_doubles_carriage_return :
    writeMem [10, 255, 0, 128] 4 [] = some "0A\r\r\nFF\r\r\n00\r\r\n80\r\r\n".toList
      ∧ writeMem [10, 255, 0, 128] 4 [] ≠ some "0A\r\nFF\r\n00\r\n80\r\n".toList
      ∧ (∀ data : List Nat, (∀ v ∈ data, v ≤ 255) →
          writeMem data data.length []
              = some (data.flatMap (fun v => textModeBytes (hexRecord v)))
            ∧ (data.flatMap (fun v => textModeBytes (hexRecord v))).length = 5 * data.length)
      ∧ (∀ v : Nat, textModeBytes (hexRecord v)
          = [hexDigit (v / 16), hexDigit (v % 16), '\r', '\r', '\n']) := by
  have h4 := writeMem_prefix [10, 255, 0, 128] (by decide) 4 [] (by decide)
  have hfun : (fun v => textModeBytes (hexRecord v)) = fileRecord :=
    funext textModeBytes_hexRecord
  refine ⟨?_, ?_, ?_, textModeBytes_hexRecord⟩
  · rw [h4]
    decide
  · rw [h4]
    decide
  · intro data hbytes
    have h := writeMem_prefix data hbytes data.length [] (le_refl _)
    rw [List.take_length, List.nil_append] at h
    rw [hfun]
    exact ⟨h, fileRecords_length data⟩

/-! ## Row padding -/

/-- C13: for every width (in particular every width >= 1) the input padding
p = (4 - (width*3) mod 4) mod 4 and the output padding q = (4 - width mod 4) mod 4 each lie
in 0..3, make the row sizes width*3 + p and width + q multiples of 4, and are the smallest
non-negative numbers of bytes doing so. For the compiled-in widths this gives p = 2, q = 2
(width 630) and p = 3, q = 1 (width 1247). -/
theorem padding_smallest_multiple_of_four (width : Nat) :
    (padding width ≤ 3 ∧ rowSize width = width * 3 + padding width ∧ rowSize width % 4 = 0
      ∧ ∀ k : Nat, (width * 3 + k) % 4 = 0 → padding width ≤ k)
    ∧ (newPadding width ≤ 3 ∧ newRowSize width = width + newPadding width
      ∧ newRowSize width % 4 = 0 ∧ ∀ k : Nat, (width + k) % 4 = 0 → newPadding width ≤ k)
    ∧ (padding GreyMEM.IMAGE_WIDTH = 2 ∧ newPadding GreyMEM.IMAGE_WIDTH = 2
      ∧ padding SobelFilter.IMAGE_WIDTH = 3 ∧ newPadding SobelFilter.IMAGE_WIDTH = 1) := by
  refine ⟨⟨?_, rfl, ?_, ?_⟩, ⟨?_, rfl, ?_, ?_⟩, ⟨rfl, rfl, rfl, rfl⟩⟩
  · unfold padding; omega
  · unfold rowSize padding; omega
  · intro k hk; unfold padding; omega
  · unfold newPadding; omega
  · unfold newRowSize newPadding; omega
  · intro k hk; unfold newPadding; omega

/-! ## Self-consistency of the output file -/

theorem leField_four (file : List Nat) (pos : Nat) :
    leField file pos 4 = file.getD pos 0 + 256 * file.getD (pos + 1) 0
      + 65536 * file.getD (pos + 2) 0 + 16777216 * file.getD (pos + 3) 0 := by
  simp [leField, List.range_succ]
  ring

theorem leBytes_two (n : Nat) : leBytes 2 n = [n % 256, n / 256 % 256] := by
  simp [leBytes, List.range_succ]

theorem leBytes_four (n : Nat) :
    leBytes 4 n = [n % 256, n / 256 % 256, n / 65536 % 256, n / 16777216 % 256] := by
  simp [leBytes, List.range_succ]

theorem stored_file_fields (h : BMPFileHeader) (rest : List Nat) :
    leField (fileHeaderBytes h ++ rest) 2 4 = h.size % 2 ^ 32
      ∧ leField (fileHeaderBytes h ++ rest) 10 4 = h.offset % 2 ^ 32 := by
  simp only [leField_four, fileHeaderBytes, leBytes_two, leBytes_four, List.cons_append,
    List.nil_append, List.getD_cons_succ, List.getD_cons_zero, List.append_assoc]
  constructor <;> omega

theorem stored_sizeImage (h1 : BMPFileHeader) (h2 : BMPInfoHeader) (rest : List Nat) :
    leField (fileHeaderBytes h1 ++ infoHeaderBytes h2 ++ rest) 34 4 = h2.sizeImage % 2 ^ 32 := by
  simp only [leField_four, fileHeaderBytes, infoHeaderBytes, leBytes_two, leBytes_four,
    List.cons_append, List.nil_append, List.getD_cons_succ, List.getD_cons_zero,
    List.append_assoc]
  omega

/-- C15: the grayscale BMP is self-consistent. For every buffer of width*height bytes (and
sizes whose file size fits the 32-bit field, as both compiled-in sizes do) the encoder returns
normally; the number of bytes it writes, 14 + 40 + 256*4 + height*(width + newPadding), is the
file size stored in bytes 2..5 of the written file; the headers and the palette written before
the first pixel byte take exactly as many bytes as the pixel-data offset stored in bytes
10..13; and the pixel area after that offset has exactly the sizeImage bytes stored in bytes
34..37. -/
theorem encodeBMP_self_consistent (W H : Nat) (fh : BMPFileHeader) (ih : BMPInfoHeader)
    (data : List Nat) (hdata : data.length = W * H)
    (hfits : 1078 + newRowSize W * H < 2 ^ 32) :
    ∃ file hdr inf, encodeBMP W H fh ih data = some file
      ∧ readFileHeader file = some hdr ∧ readInfoHeader file = some inf
      ∧ file.length = 14 + 40 + 256 * 4 + H * (W + newPadding W)
      ∧ hdr.size = file.length
      ∧ (writePalette (fileHeaderBytes (outputHeaders W H fh ih).1
          ++ infoHeaderBytes (outputHeaders W H fh ih).2)).length = hdr.offset
      ∧ hdr.offset = 1078
      ∧ inf.sizeImage = file.length - hdr.offset
      ∧ inf.sizeImage = H * newRowSize W := by
  obtain ⟨tail, hrun, hlen⟩ := encodeBMP_shape W H fh ih data hdata
  have hpl := writePalette_nil_length
  have h14 := fileHeaderBytes_length (outputHeaders W H fh ih).1
  have h40 := infoHeaderBytes_length (outputHeaders W H fh ih).2
  have hsize : (outputHeaders W H fh ih).1.size = 1078 + newRowSize W * H := by
    simp only [outputHeaders, paletteSize]
    exact Nat.mod_eq_of_lt (by omega)
  have hoff : (outputHeaders W H fh ih).1.offset = 1078 := rfl
  have himg : (outputHeaders W H fh ih).2.sizeImage = newRowSize W * H := by
    simp only [outputHeaders]
    exact Nat.mod_eq_of_lt (by omega)
  have hf := stored_file_fields (outputHeaders W H fh ih).1
    (infoHeaderBytes (outputHeaders W H fh ih).2 ++ (writePalette [] ++ tail))
  have hi := stored_sizeImage (outputHeaders W H fh ih).1 (outputHeaders W H fh ih).2
    (writePalette [] ++ tail)
  have hprefix : (writePalette (fileHeaderBytes (outputHeaders W H fh ih).1
      ++ infoHeaderBytes (outputHeaders W H fh ih).2)).length = 1078 := by
    rw [writePalette_length, List.length_append, h14, h40]
  have hshape : (fileHeaderBytes (outputHeaders W H fh ih).1
        ++ infoHeaderBytes (outputHeaders W H fh ih).2) ++ writePalette [] ++ tail
      = fileHeaderBytes (outputHeaders W H fh ih).1
        ++ (infoHeaderBytes (outputHeaders W H fh ih).2 ++ (writePalette [] ++ tail)) := by
    simp only [List.append_assoc]
  have hshape2 : (fileHeaderBytes (outputHeaders W H fh ih).1
        ++ infoHeaderBytes (outputHeaders W H fh ih).2) ++ writePalette [] ++ tail
      = fileHeaderBytes (outputHeaders W H fh ih).1
        ++ infoHeaderBytes (outputHeaders W H fh ih).2 ++ (writePalette [] ++ tail) := by
    simp only [List.append_assoc]
  have hflen : ((fileHeaderBytes (outputHeaders W H fh ih).1
        ++ infoHeaderBytes (outputHeaders W H fh ih).2) ++ writePalette [] ++ tail).length
      = 1078 + H * newRowSize W := by
    simp only [List.length_append, h14, h40, hpl, hlen]
  rw [hsize, Nat.mod_eq_of_lt hfits] at hf
  rw [hoff] at hf
  rw [himg, Nat.mod_eq_of_lt (by omega)] at hi
  rw [← hshape] at hf
  rw [← hshape2] at hi
  generalize (fileHeaderBytes (outputHeaders W H fh ih).1
        ++ infoHeaderBytes (outputHeaders W H fh ih).2) ++ writePalette [] ++ tail = file
    at hrun hf hi hflen
  have hmul : H * newRowSize W = newRowSize W * H := Nat.mul_comm _ _
  obtain ⟨hdr, hhdr, hs1, hs2⟩ : ∃ hdr, readFileHeader file = some hdr
      ∧ hdr.size = leField file 2 4 ∧ hdr.offset = leField file 10 4 := by
    unfold readFileHeader
    rw [if_pos (by omega)]
    exact ⟨_, rfl, rfl, rfl⟩
  obtain ⟨inf, hinf, hs3⟩ : ∃ inf, readInfoHeader file = some inf
      ∧ inf.sizeImage = leField file 34 4 := by
    unfold readInfoHeader
    rw [if_pos (by omega)]
    exact ⟨_, rfl, rfl⟩
  rw [hf.1] at hs1
  rw [hf.2] at hs2
  rw [hi] at hs3
  refine ⟨file, hdr, inf, hrun, hhdr, hinf, ?_, ?_, ?_, hs2, ?_, ?_⟩
  · rw [hflen]; unfold newRowSize; omega
  · rw [hs1, hflen]; omega
  · rw [hs2]; exact hprefix
  · rw [hs3, hs2, hflen]; omega
  · rw [hs3]; omega

theorem encodeBMP_self_consistent_witness :
    ∃ file hdr inf, encodeBMP 3 2 ⟨0x4D42, 0, 0, 0, 54⟩ ⟨40, 3, 2, 1, 24, 0, 0, 0, 0, 0, 0⟩
        [1, 2, 3, 4, 5, 6] = some file
      ∧ readFileHeader file = some hdr ∧ readInfoHeader file = some inf
      ∧ file.length = 14 + 40 + 256 * 4 + 2 * (3 + newPadding 3)
      ∧ hdr.size = file.length
      ∧ (writePalette (fileHeaderBytes (outputHeaders 3 2 ⟨0x4D42, 0, 0, 0, 54⟩
            ⟨40, 3, 2, 1, 24, 0, 0, 0, 0, 0, 0⟩).1
          ++ infoHeaderBytes (outputHeaders 3 2 ⟨0x4D42, 0, 0, 0, 54⟩
            ⟨40, 3, 2, 1, 24, 0, 0, 0, 0, 0, 0⟩).2)).length = hdr.offset
      ∧ hdr.offset = 1078
      ∧ inf.sizeImage = file.length - hdr.offset
      ∧ inf.sizeImage = 2 * newRowSize 3 :=
  encodeBMP_self_consistent 3 2 ⟨0x4D42, 0, 0, 0, 54⟩ ⟨40, 3, 2, 1, 24, 0, 0, 0, 0, 0, 0⟩
    [1, 2, 3, 4, 5, 6] (by decide) (by decide)

/-! ## Ranges of the Sobel sums -/

theorem kernelEntry_small (i j : Int) (hi : i = -1 ∨ i = 0 ∨ i = 1) (hj : j = -1 ∨ j = 0 ∨ j = 1) :
    (-2 ≤ kernelEntry sobelX (i + 1) (j + 1) ∧ kernelEntry sobelX (i + 1) (j + 1) ≤ 2)
      ∧ (-2 ≤ kernelEntry sobelY (i + 1) (j + 1) ∧ kernelEntry sobelY (i + 1) (j + 1) ≤ 2) := by
  rcases hi with rfl | rfl | rfl <;> rcases hj with rfl | rfl | rfl <;> decide

/-- C16: for every input buffer of bytes and every pixel, the Sobel sums computed by
findEdges satisfy -1020 <= gx <= 1020 and -1020 <= gy <= 1020, hence
0 <= gx*gx + gy*gy <= 2080800 < 2^31; every single addition of the two inner loops changes
gx and gy by at most 510. So the 32-bit signed arithmetic of findEdges stays in range and
the argument of sqrt is never negative. -/
theorem sobelSums_in_range (input : List Nat) (width height x y : Int) (hw : 1 ≤ width)
    (hh : 1 ≤ height) (hlen : (input.length : Int) = width * height)
    (hbytes : ∀ v ∈ input, v ≤ 255) :
    (∃ gx gy, sobelSums input width height x y = some (gx, gy)
      ∧ -1020 ≤ gx ∧ gx ≤ 1020 ∧ -1020 ≤ gy ∧ gy ≤ 1020
      ∧ 0 ≤ gx * gx + gy * gy ∧ gx * gx + gy * gy ≤ 2080800
      ∧ gx * gx + gy * gy < 2 ^ 31)
    ∧ (∀ (i j : Int) (acc : Int × Int), (i = -1 ∨ i = 0 ∨ i = 1) → (j = -1 ∨ j = 0 ∨ j = 1) →
        ∃ acc2, sobelAccumulate input width height x y i acc j = some acc2
          ∧ acc.1 - 510 ≤ acc2.1 ∧ acc2.1 ≤ acc.1 + 510
          ∧ acc.2 - 510 ≤ acc2.2 ∧ acc2.2 ≤ acc.2 + 510) := by
  constructor
  · have hs := sobelSums_eq input width height x y hw hh hlen
    have hb := sobel_bounds input width height x y hbytes
    have hq := sq_sum_bound _ _ hb.1 hb.2
    refine ⟨_, _, hs, hb.1.1, hb.1.2, hb.2.1, hb.2.2, hq.1, hq.2, ?_⟩
    exact lt_of_le_of_lt hq.2 (by norm_num)
  · intro i j acc hi hj
    have hp := clampedPixel_byte input width height (x + j) (y + i) hbytes
    have hk := kernelEntry_small i j hi hj
    have hget : getPixel input width height (x + j) (y + i)
        = some (clampedPixel input width height (x + j) (y + i)).toNat := by
      rw [getPixel_eq input width height _ _ hw hh hlen]
      simp [clampedPixel]
    have hc : ((clampedPixel input width height (x + j) (y + i)).toNat : Int)
        = clampedPixel input width height (x + j) (y + i) := by
      simp [clampedPixel]
    unfold sobelAccumulate
    rw [hget]
    simp only [Option.bind_eq_bind, Option.some_bind, Option.pure_def, hc]
    refine ⟨_, rfl, ?_⟩
    simp only []
    generalize clampedPixel input width height (x + j) (y + i) = p at hp
    generalize kernelEntry sobelX (i + 1) (j + 1) = kx at hk
    generalize kernelEntry sobelY (i + 1) (j + 1) = ky at hk
    have h1 : -510 ≤ p * kx ∧ p * kx ≤ 510 := by
      constructor <;> nlinarith [hp.1, hp.2, hk.1.1, hk.1.2]
    have h2 : -510 ≤ p * ky ∧ p * ky ≤ 510 := by
      constructor <;> nlinarith [hp.1, hp.2, hk.2.1, hk.2.2]
    omega

theorem sobelSums_in_range_witness :
    (∃ gx gy, sobelSums [0, 255, 0, 255] 2 2 1 0 = some (gx, gy)
      ∧ -1020 ≤ gx ∧ gx ≤ 1020 ∧ -1020 ≤ gy ∧ gy ≤ 1020
      ∧ 0 ≤ gx * gx + gy * gy ∧ gx * gx + gy * gy ≤ 2080800
      ∧ gx * gx + gy * gy < 2 ^ 31)
    ∧ (∀ (i j : Int) (acc : Int × Int), (i = -1 ∨ i = 0 ∨ i = 1) → (j = -1 ∨ j = 0 ∨ j = 1) →
        ∃ acc2, sobelAccumulate [0, 255, 0, 255] 2 2 1 0 i acc j = some acc2
          ∧ acc.1 - 510 ≤ acc2.1 ∧ acc2.1 ≤ acc.1 + 510
          ∧ acc.2 - 510 ≤ acc2.2 ∧ acc2.2 ≤ acc.2 + 510) :=
  sobelSums_in_range [0, 255, 0, 255] 2 2 1 0 (by decide) (by decide) (by decide) (by decide)

/-! ## Orientation of the kernels -/

theorem clamp_toNat_lt (v n : Int) (hn : 1 ≤ n) :
    0 ≤ clampCoord v n ∧ (clampCoord v n).toNat < n.toNat
      ∧ ((clampCoord v n).toNat : Int) = clampCoord v n := by
  have h0 : 0 ≤ clampCoord v n := by unfold clampCoord; omega
  have h1 : clampCoord v n ≤ n - 1 := by unfold clampCoord; omega
  refine ⟨h0, by omega, by omega⟩

theorem clampedPixel_at (image : List Nat) (W H : Nat) (hW : 1 ≤ W) (hH : 1 ≤ H) (a b : Int)
    (v : Nat)
    (hv : image[(clampCoord b H).toNat * W + (clampCoord a W).toNat]? = some v) :
    clampedPixel image W H a b = v := by
  obtain ⟨_, _, ea⟩ := clamp_toNat_lt a W (by omega)
  obtain ⟨_, _, eb⟩ := clamp_toNat_lt b H (by omega)
  have e : (clampCoord b H * W + clampCoord a W).toNat
      = (clampCoord b H).toNat * W + (clampCoord a W).toNat := by
    have : clampCoord b (H : Int) * (W : Int) + clampCoord a (W : Int)
        = (((clampCoord b H).toNat * W + (clampCoord a W).toNat : Nat) : Int) := by
      push_cast
      rw [ea, eb]
    rw [this, Int.toNat_ofNat]
  unfold clampedPixel
  rw [e, List.getD_eq_getElem?_getD, hv]
  rfl

theorem gradientMagnitude_left (g : Int) : gradientMagnitude g 0 = min 255 g.natAbs := by
  unfold gradientMagnitude
  have e : (g * g + 0 * 0).toNat = g.natAbs * g.natAbs := by
    have : g * g + 0 * 0 = ((g.natAbs * g.natAbs : Nat) : Int) := by
      push_cast
      rw [abs_mul_abs_self]
      ring
    rw [this, Int.toNat_ofNat]
  rw [e, Nat.sqrt_eq]

theorem gradientMagnitude_right (g : Int) : gradientMagnitude 0 g = min 255 g.natAbs := by
  unfold gradientMagnitude
  have e : (0 * 0 + g * g).toNat = g.natAbs * g.natAbs := by
    have : 0 * 0 + g * g = ((g.natAbs * g.natAbs : Nat) : Int) := by
      push_cast
      rw [abs_mul_abs_self]
      ring
    rw [this, Int.toNat_ofNat]
  rw [e, Nat.sqrt_eq]

/-- C17: the kernels are applied in the right orientation, borders included. For every
width >= 1, height >= 1 and image of bytes, findEdges returns normally; if the pixel value
depends only on the column x, then at every pixel the sums of findEdges are (Gx, 0) and the
stored byte is min(255, |Gx|); if the pixel value depends only on the row y, then at every
pixel the sums are (0, Gy) and the stored byte is min(255, |Gy|). -/
theorem findEdges_kernel_orientation (width height : Nat) (input output : List Nat)
    (hw : 1 ≤ width) (hh : 1 ≤ height) (hin : input.length = width * height)
    (hout : output.length = width * height) (hbytes : ∀ v ∈ input, v ≤ 255) :
    ∃ out, findEdges input output width height = some out
      ∧ ((∃ col : Nat → Nat, ∀ x y : Nat, x < width → y < height →
            input[y * width + x]? = some (col x)) →
          ∀ x y : Nat, x < width → y < height →
            sobelSums input width height x y = some (sobelGx input width height x y, 0)
            ∧ out[y * width + x]? = some (min 255 (sobelGx input width height x y).natAbs))
      ∧ ((∃ row : Nat → Nat, ∀ x y : Nat, x < width → y < height →
            input[y * width + x]? = some (row y)) →
          ∀ x y : Nat, x < width → y < height →
            sobelSums input width height x y = some (0, sobelGy input width height x y)
            ∧ out[y * width + x]? = some (min 255 (sobelGy input width height x y).natAbs)) := by
  obtain ⟨out, hrun, _, hval⟩ := findEdges_run input output width height hin hout
  have hsums := fun (x y : Nat) => sobelSums_eq input width height x y (by omega) (by omega)
    (by exact_mod_cast hin)
  refine ⟨out, hrun, ?_, ?_⟩
  · rintro ⟨col, hcol⟩ x y hx hy
    have hp : ∀ a b : Int, clampedPixel input width height a b
        = col (clampCoord a width).toNat := by
      intro a b
      obtain ⟨_, ha, _⟩ := clamp_toNat_lt a width (by omega)
      obtain ⟨_, hb, _⟩ := clamp_toNat_lt b height (by omega)
      exact clampedPixel_at input width height hw hh a b _
        (hcol _ _ (by simpa using ha) (by simpa using hb))
    have hgy : sobelGy input width height x y = 0 := by
      simp only [sobelGy, weightedSumY, hp]
      ring
    refine ⟨?_, ?_⟩
    · rw [hsums x y, hgy]
    · rw [hval x y hx hy, edgeByte_eq input width height x y hbytes, hgy,
        gradientMagnitude_left]
  · rintro ⟨row, hrow⟩ x y hx hy
    have hp : ∀ a b : Int, clampedPixel input width height a b
        = row (clampCoord b height).toNat := by
      intro a b
      obtain ⟨_, ha, _⟩ := clamp_toNat_lt a width (by omega)
      obtain ⟨_, hb, _⟩ := clamp_toNat_lt b height (by omega)
      exact clampedPixel_at input width height hw hh a b _
        (hrow _ _ (by simpa using ha) (by simpa using hb))
    have hgx : sobelGx input width height x y = 0 := by
      simp only [sobelGx, weightedSumX, hp]
      ring
    refine ⟨?_, ?_⟩
    · rw [hsums x y, hgx]
    · rw [hval x y hx hy, edgeByte_eq input width height x y hbytes, hgx,
        gradientMagnitude_right]

theorem findEdges_kernel_orientation_witness :
    ∃ out, findEdges [10, 200, 10, 200] [0, 0, 0, 0] (2 : Nat) (2 : Nat) = some out
      ∧ ((∃ col : Nat → Nat, ∀ x y : Nat, x < 2 → y < 2 →
            [10, 200, 10, 200][y * 2 + x]? = some (col x)) →
          ∀ x y : Nat, x < 2 → y < 2 →
            sobelSums [10, 200, 10, 200] (2 : Nat) (2 : Nat) x y
              = some (sobelGx [10, 200, 10, 200] (2 : Nat) (2 : Nat) x y, 0)
            ∧ out[y * 2 + x]?
              = some (min 255 (sobelGx [10, 200, 10, 200] (2 : Nat) (2 : Nat) x y).natAbs))
      ∧ ((∃ row : Nat → Nat, ∀ x y : Nat, x < 2 → y < 2 →
            [10, 200, 10, 200][y * 2 + x]? = some (row y)) →
          ∀ x y : Nat, x < 2 → y < 2 →
            sobelSums [10, 200, 10, 200] (2 : Nat) (2 : Nat) x y
              = some (0, sobelGy [10, 200, 10, 200] (2 : Nat) (2 : Nat) x y)
            ∧ out[y * 2 + x]?
              = some (min 255 (sobelGy [10, 200, 10, 200] (2 : Nat) (2 : Nat) x y).natAbs)) :=
  findEdges_kernel_orientation 2 2 [10, 200, 10, 200] [0, 0, 0, 0] (by decide) (by decide)
    (by decide) (by decide) (by decide)

/-! ## Mirroring -/

theorem index_div_mod (W x y : Nat) (hx : x < W) :
    (y * W + x) / W = y ∧ (y * W + x) % W = x := by
  constructor
  · rw [Nat.mul_comm, Nat.mul_add_div (by omega), Nat.div_eq_of_lt hx]; rfl
  · rw [Nat.mul_comm, Nat.mul_add_mod, Nat.mod_eq_of_lt hx]

theorem flipHorizontal_get (image : List Nat) (W H x y : Nat) (hx : x < W) (hy : y < H) :
    (flipHorizontal image W H)[y * W + x]? = some (image.getD (y * W + (W - 1 - x)) 0) := by
  obtain ⟨hd, hm⟩ := index_div_mod W x y hx
  unfold flipHorizontal
  rw [List.getElem?_map, List.getElem?_range (index_lt W H x y hx hy)]
  simp only [Option.map_some', hd, hm]

theorem flipVertical_get (image : List Nat) (W H x y : Nat) (hx : x < W) (hy : y < H) :
    (flipVertical image W H)[y * W + x]? = some (image.getD ((H - 1 - y) * W + x) 0) := by
  obtain ⟨hd, hm⟩ := index_div_mod W x y hx
  unfold flipVertical
  rw [List.getElem?_map, List.getElem?_range (index_lt W H x y hx hy)]
  simp only [Option.map_some', hd, hm]

theorem clampCoord_mirror (v : Int) (n : Nat) (hn : 1 ≤ n) :
    (clampCoord ((n : Int) - 1 - v) n).toNat = n - 1 - (clampCoord v n).toNat := by
  unfold clampCoord
  omega

theorem clampedPixel_getD (image : List Nat) (W H : Nat) (hW : 1 ≤ W) (hH : 1 ≤ H) (a b : Int) :
    clampedPixel image W H a b
      = (image.getD ((clampCoord b H).toNat * W + (clampCoord a W).toNat) 0 : Nat) := by
  obtain ⟨_, _, ea⟩ := clamp_toNat_lt a W (by omega)
  obtain ⟨_, _, eb⟩ := clamp_toNat_lt b H (by omega)
  have e : (clampCoord b H * W + clampCoord a W).toNat
      = (clampCoord b H).toNat * W + (clampCoord a W).toNat := by
    have : clampCoord b (H : Int) * (W : Int) + clampCoord a (W : Int)
        = (((clampCoord b H).toNat * W + (clampCoord a W).toNat : Nat) : Int) := by
      push_cast
      rw [ea, eb]
    rw [this, Int.toNat_ofNat]
  unfold clampedPixel
  rw [e]

theorem clampedPixel_flipHorizontal (image : List Nat) (W H : Nat) (hW : 1 ≤ W) (hH : 1 ≤ H)
    (a b : Int) :
    clampedPixel (flipHorizontal image W H) W H a b
      = clampedPixel image W H ((W : Int) - 1 - a) b := by
  obtain ⟨_, ha, _⟩ := clamp_toNat_lt a W (by omega)
  obtain ⟨_, hb, _⟩ := clamp_toNat_lt b H (by omega)
  rw [clampedPixel_at (flipHorizontal image W H) W H hW hH a b _
    (flipHorizontal_get image W H _ _ (by simpa using ha) (by simpa using hb)),
    clampedPixel_getD image W H hW hH, clampCoord_mirror a W hW]

theorem clampedPixel_flipVertical (image : List Nat) (W H : Nat) (hW : 1 ≤ W) (hH : 1 ≤ H)
    (a b : Int) :
    clampedPixel (flipVertical image W H) W H a b
      = clampedPixel image W H a ((H : Int) - 1 - b) := by
  obtain ⟨_, ha, _⟩ := clamp_toNat_lt a W (by omega)
  obtain ⟨_, hb, _⟩ := clamp_toNat_lt b H (by omega)
  rw [clampedPixel_at (flipVertical image W H) W H hW hH a b _
    (flipVertical_get image W H _ _ (by simpa using ha) (by simpa using hb)),
    clampedPixel_getD image W H hW hH, clampCoord_mirror b H hH]

theorem edgeMagnitude_neg_left (gx gy : Int) : edgeMagnitude (-gx) gy = edgeMagnitude gx gy := by
  unfold edgeMagnitude
  rw [neg_mul_neg]

theorem edgeMagnitude_neg_right (gx gy : Int) : edgeMagnitude gx (-gy) = edgeMagnitude gx gy := by
  unfold edgeMagnitude
  rw [neg_mul_neg]

theorem edgeByte_flipHorizontal (image : List Nat) (W H : Nat) (hW : 1 ≤ W) (hH : 1 ≤ H)
    (x y : Nat) (hx : x < W) :
    edgeByte (flipHorizontal image W H) W H x y
      = edgeByte image W H (W - 1 - x : Nat) y := by
  have hp := clampedPixel_flipHorizontal image W H hW hH
  have e1 : (W : Int) - 1 - ((x : Int) - 1) = ((W - 1 - x : Nat) : Int) + 1 := by omega
  have e2 : (W : Int) - 1 - (x : Int) = ((W - 1 - x : Nat) : Int) := by omega
  have e3 : (W : Int) - 1 - ((x : Int) + 1) = ((W - 1 - x : Nat) : Int) - 1 := by omega
  have hgx : sobelGx (flipHorizontal image W H) W H x y
      = - sobelGx image W H (W - 1 - x : Nat) y := by
    simp only [sobelGx, weightedSumX, hp, e1, e2, e3]
    ring
  have hgy : sobelGy (flipHorizontal image W H) W H x y
      = sobelGy image W H (W - 1 - x : Nat) y := by
    simp only [sobelGy, weightedSumY, hp, e1, e2, e3]
    ring
  unfold edgeByte
  rw [hgx, hgy, edgeMagnitude_neg_left]

theorem edgeByte_flipVertical (image : List Nat) (W H : Nat) (hW : 1 ≤ W) (hH : 1 ≤ H)
    (x y : Nat) (hy : y < H) :
    edgeByte (flipVertical image W H) W H x y
      = edgeByte image W H x (H - 1 - y : Nat) := by
  have hp := clampedPixel_flipVertical image W H hW hH
  have e1 : (H : Int) - 1 - ((y : Int) - 1) = ((H - 1 - y : Nat) : Int) + 1 := by omega
  have e2 : (H : Int) - 1 - (y : Int) = ((H - 1 - y : Nat) : Int) := by omega
  have e3 : (H : Int) - 1 - ((y : Int) + 1) = ((H - 1 - y : Nat) : Int) - 1 := by omega
  have hgx : sobelGx (flipVertical image W H) W H x y
      = sobelGx image W H x (H - 1 - y : Nat) := by
    simp only [sobelGx, weightedSumX, hp, e1, e2, e3]
    ring
  have hgy : sobelGy (flipVertical image W H) W H x y
      = - sobelGy image W H x (H - 1 - y : Nat) := by
    simp only [sobelGy, weightedSumY, hp, e1, e2, e3]
    ring
  unfold edgeByte
  rw [hgx, hgy, edgeMagnitude_neg_right]

theorem flipHorizontal_length (image : List Nat) (W H : Nat) :
    (flipHorizontal image W H).length = W * H := by
  simp [flipHorizontal]

theorem flipVertical_length (image : List Nat) (W H : Nat) :
    (flipVertical image W H).length = W * H := by
  simp [flipVertical]

theorem grid_ext (W H : Nat) (hW : 1 ≤ W) (l1 l2 : List Nat) (h1 : l1.length = W * H)
    (h2 : l2.length = W * H)
    (h : ∀ x y : Nat, x < W → y < H → l1[y * W + x]? = l2[y * W + x]?) : l1 = l2 := by
  apply List.ext_getElem?
  intro k
  by_cases hk : k < W * H
  · have hx : k % W < W := Nat.mod_lt _ (by omega)
    have hy : k / W < H := index_div_lt W H k hk
    have := h (k % W) (k / W) hx hy
    rw [← index_split W k] at this
    exact this
  · rw [List.getElem?_eq_none (by omega), List.getElem?_eq_none (by omega)]

/-- C18: findEdges commutes with mirroring. For every width >= 1, height >= 1 and input
buffer of width*height entries, findEdges returns normally on the image and on its two
mirror images; its output on the horizontally flipped image (pixel (x, y) taken from
(width-1-x, y)) is the horizontal flip of its output on the original image, and likewise
for the vertical flip (pixel (x, y) taken from (x, height-1-y)), border pixels included. -/
theorem findEdges_commutes_with_flips (width height : Nat) (input output : List Nat)
    (hw : 1 ≤ width) (hh : 1 ≤ height) (hin : input.length = width * height)
    (hout : output.length = width * height) :
    ∃ out, findEdges input output width height = some out
      ∧ findEdges (flipHorizontal input width height) output width height
          = some (flipHorizontal out width height)
      ∧ findEdges (flipVertical input width height) output width height
          = some (flipVertical out width height) := by
  obtain ⟨out, hrun, hlen, hval⟩ := findEdges_run input output width height hin hout
  obtain ⟨outH, hrunH, hlenH, hvalH⟩ := findEdges_run (flipHorizontal input width height)
    output width height (flipHorizontal_length _ _ _) hout
  obtain ⟨outV, hrunV, hlenV, hvalV⟩ := findEdges_run (flipVertical input width height)
    output width height (flipVertical_length _ _ _) hout
  have hget : ∀ x y : Nat, x < width → y < height →
      out.getD (y * width + x) 0 = edgeByte input width height x y := by
    intro x y hx hy
    rw [List.getD_eq_getElem?_getD, hval x y hx hy]
    rfl
  refine ⟨out, hrun, ?_, ?_⟩
  · rw [hrunH]
    congr 1
    apply grid_ext width height hw _ _ hlenH (flipHorizontal_length _ _ _)
    intro x y hx hy
    rw [hvalH x y hx hy, flipHorizontal_get out width height x y hx hy,
      hget (width - 1 - x) y (by omega) hy,
      edgeByte_flipHorizontal input width height hw hh x y hx]
  · rw [hrunV]
    congr 1
    apply grid_ext width height hw _ _ hlenV (flipVertical_length _ _ _)
    intro x y hx hy
    rw [hvalV x y hx hy, flipVertical_get out width height x y hx hy,
      hget x (height - 1 - y) hx (by omega),
      edgeByte_flipVertical input width height hw hh x y hy]

theorem findEdges_commutes_with_flips_witness :
    ∃ out, findEdges [10, 20, 30, 40, 50, 60] [0, 0, 0, 0, 0, 0] (3 : Nat) (2 : Nat) = some out
      ∧ findEdges (flipHorizontal [10, 20, 30, 40, 50, 60] 3 2) [0, 0, 0, 0, 0, 0]
          (3 : Nat) (2 : Nat) = some (flipHorizontal out 3 2)
      ∧ findEdges (flipVertical [10, 20, 30, 40, 50, 60] 3 2) [0, 0, 0, 0, 0, 0]
          (3 : Nat) (2 : Nat) = some (flipVertical out 3 2) :=
  findEdges_commutes_with_flips 3 2 [10, 20, 30, 40, 50, 60] [0, 0, 0, 0, 0, 0] (by decide)
    (by decide) (by decide) (by decide)

/-! ## Buffers on the failure paths -/

theorem GreyMEM_frees_on_failure (o : Outcomes) (h : (GreyMEM.main o).2 ≠ 0) :
    allocatedAfter (GreyMEM.main o).1 = [] := by
  obtain ⟨a, fh, ih, b, c, d, e, f, g⟩ := o
  unfold GreyMEM.main at h ⊢
  simp only [] at h ⊢
  cases hv : validateHeaders GreyMEM.IMAGE_WIDTH GreyMEM.IMAGE_HEIGHT fh ih with
  | some p =>
    cases a <;> simp [hv, allocatedAfter, allocStep]
  | none =>
    cases a <;> cases b <;> cases c <;> cases e <;> cases g <;>
      simp [hv, allocatedAfter, allocStep] at h ⊢

theorem SobelFilter_held_on_failure (o : Outcomes) (h : (SobelFilter.main o).2 ≠ 0) :
    (allocatedAfter (SobelFilter.main o).1 = []
      ∨ allocatedAfter (SobelFilter.main o).1 = [Buffer.edgeData])
    ∧ (allocatedAfter (SobelFilter.main o).1 = [Buffer.edgeData]
        ↔ o.inputOpens = true
          ∧ validateHeaders SobelFilter.IMAGE_WIDTH SobelFilter.IMAGE_HEIGHT o.fileHeader
              o.infoHeader = none
          ∧ o.imageAllocated = true ∧ o.grayscaleAllocated = true ∧ o.edgeAllocated = true
          ∧ (o.outputOpens = false ∨ (o.edgeOpens = true ∧ o.memOpens = false))) := by
  obtain ⟨a, fh, ih, b, c, d, e, f, g⟩ := o
  unfold SobelFilter.main at h ⊢
  simp only [] at h ⊢
  cases hv : validateHeaders SobelFilter.IMAGE_WIDTH SobelFilter.IMAGE_HEIGHT fh ih with
  | some p =>
    cases a <;> simp [hv, allocatedAfter, allocStep]
  | none =>
    cases a <;> cases b <;> cases c <;> cases d <;> cases e <;> cases f <;> cases g <;>
      simp [hv, allocatedAfter, allocStep] at h ⊢

theorem SobelFilter_success_trace (fh : BMPFileHeader) (ih : BMPInfoHeader)
    (hv : validateHeaders SobelFilter.IMAGE_WIDTH SobelFilter.IMAGE_HEIGHT fh ih = none)
    (e f g : Bool) :
    SobelFilter.main { allSucceed fh ih with outputOpens := e, edgeOpens := f, memOpens := g }
      = SobelFilter.main { allSucceed ⟨0x4D42, 2693574, 0, 0, 54⟩
            ⟨40, 1247, 720, 1, 24, 0, 2693520, 2835, 2835, 0, 0⟩ with
          outputOpens := e, edgeOpens := f, memOpens := g } := by
  have hv2 : validateHeaders SobelFilter.IMAGE_WIDTH SobelFilter.IMAGE_HEIGHT
      ⟨0x4D42, 2693574, 0, 0, 54⟩ ⟨40, 1247, 720, 1, 24, 0, 2693520, 2835, 2835, 0, 0⟩
      = none := by decide
  unfold SobelFilter.main
  simp only [allSucceed, hv, hv2]

/-- C14 (the code at the failing inputs): a run of Sobel_Filter on a valid input in which
every allocation succeeds but output_a.bmp cannot be opened returns 1 with edgeData still
allocated, and so does a run in which only the MEM file cannot be opened; the sibling path
for the edge output file returns 1 with nothing allocated. In Grey+MEM every run that
returns a nonzero status returns with no buffer allocated. -/
theorem SobelFilter_main_leaks_edgeData :
    (∀ (fh : BMPFileHeader) (ih : BMPInfoHeader),
      validateHeaders SobelFilter.IMAGE_WIDTH SobelFilter.IMAGE_HEIGHT fh ih = none →
        ((SobelFilter.main { allSucceed fh ih with outputOpens := false }).2 = 1
          ∧ allocatedAfter (SobelFilter.main { allSucceed fh ih with outputOpens := false }).1
              = [Buffer.edgeData])
        ∧ ((SobelFilter.main { allSucceed fh ih with memOpens := false }).2 = 1
          ∧ allocatedAfter (SobelFilter.main { allSucceed fh ih with memOpens := false }).1
              = [Buffer.edgeData])
        ∧ ((SobelFilter.main { allSucceed fh ih with edgeOpens := false }).2 = 1
          ∧ allocatedAfter (SobelFilter.main { allSucceed fh ih with edgeOpens := false }).1
              = []))
    ∧ (∀ o : Outcomes, (GreyMEM.main o).2 ≠ 0 → allocatedAfter (GreyMEM.main o).1 = [])
    ∧ validateHeaders SobelFilter.IMAGE_WIDTH SobelFilter.IMAGE_HEIGHT
        ⟨0x4D42, 2693574, 0, 0, 54⟩ ⟨40, 1247, 720, 1, 24, 0, 2693520, 2835, 2835, 0, 0⟩
        = none := by
  refine ⟨?_, GreyMEM_frees_on_failure, by decide⟩
  intro fh ih hv
  have h1 := SobelFilter_success_trace fh ih hv false true true
  have h2 := SobelFilter_success_trace fh ih hv true true false
  have h3 := SobelFilter_success_trace fh ih hv true false true
  simp only [allSucceed] at h1 h2 h3 ⊢
  rw [h1, h2, h3]
  decide

/-! ## File handles on the success path -/

/-- C19 (the code at the failing input): on the success path of Sobel_Filter, main returns 0
but the handle state machine has no run: the first sixteen calls leave inFile closed, outFile
open and edgeOutFile closed after one copy of the pixel rows, and the next call writes pixel
rows to edgeOutFile again; edgeOutFile is closed twice and is the target of two row loops,
while inFile, outFile and memOutFile are each closed once. The success path of Grey+MEM
runs through, with every handle it opens closed once. -/
theorem SobelFilter_main_writes_closed_edgeOutFile :
    (∀ (fh : BMPFileHeader) (ih : BMPInfoHeader),
      validateHeaders SobelFilter.IMAGE_WIDTH SobelFilter.IMAGE_HEIGHT fh ih = none →
        (SobelFilter.main (allSucceed fh ih)).2 = 0
        ∧ runHandles (SobelFilter.main (allSucceed fh ih)).1 = none
        ∧ runHandles ((SobelFilter.main (allSucceed fh ih)).1.take 16)
            = some { inFile := HandleState.closed, outFile := HandleState.opened,
                     edgeOutFile := HandleState.closed, memOutFile := HandleState.unopened }
        ∧ (SobelFilter.main (allSucceed fh ih)).1[16]?
            = some (Call.fwrite Handle.edgeOutFile Content.pixelRows)
        ∧ (SobelFilter.main (allSucceed fh ih)).1.count (Call.fclose Handle.edgeOutFile) = 2
        ∧ (SobelFilter.main (allSucceed fh ih)).1.count
            (Call.fwrite Handle.edgeOutFile Content.pixelRows) = 2
        ∧ ((SobelFilter.main (allSucceed fh ih)).1.take 16).count
            (Call.fwrite Handle.edgeOutFile Content.pixelRows) = 1
        ∧ (SobelFilter.main (allSucceed fh ih)).1.count (Call.fclose Handle.inFile) = 1
        ∧ (SobelFilter.main (allSucceed fh ih)).1.count (Call.fclose Handle.outFile) = 1
        ∧ (SobelFilter.main (allSucceed fh ih)).1.count (Call.fclose Handle.memOutFile) = 1)
    ∧ (∀ (fh : BMPFileHeader) (ih : BMPInfoHeader),
      validateHeaders GreyMEM.IMAGE_WIDTH GreyMEM.IMAGE_HEIGHT fh ih = none →
        (GreyMEM.main (allSucceed fh ih)).2 = 0
        ∧ runHandles (GreyMEM.main (allSucceed fh ih)).1
            = some { inFile := HandleState.closed, outFile := HandleState.closed,
                     edgeOutFile := HandleState.unopened,
                     memOutFile := HandleState.closed })
    ∧ validateHeaders SobelFilter.IMAGE_WIDTH SobelFilter.IMAGE_HEIGHT
        ⟨0x4D42, 2693574, 0, 0, 54⟩ ⟨40, 1247, 720, 1, 24, 0, 2693520, 2835, 2835, 0, 0⟩
        = none := by
  refine ⟨?_, ?_, by decide⟩
  · intro fh ih hv
    have h := SobelFilter_success_trace fh ih hv true true true
    simp only [allSucceed] at h ⊢
    rw [h]
    decide
  · intro fh ih hv
    unfold GreyMEM.main
    simp only [allSucceed, hv]
    decide

/-! ## Gray pixels -/

set_option maxRecDepth 100000 in
/-- C20 (as amended): for every v in 0..255, rgbToGrayscale applied to the triple with
blue = green = red = v returns v, except for the 65 levels of darkenedGrays (1, 2, 4, 8, 11,
...), where it returns v - 1: the three binary64 weights sum to slightly less than 1. So
converting an already-gray 24-bit image lowers some pixels by one level and none by more. -/
theorem rgbToGrayscale_gray_levels (v : Nat) (hv : v < 256) :
    rgbToGrayscale ⟨v, v, v⟩ = (if v ∈ darkenedGrays then v - 1 else v)
      ∧ (rgbToGrayscale ⟨v, v, v⟩ = v ∨ rgbToGrayscale ⟨v, v, v⟩ + 1 = v)
      ∧ darkenedGrays.length = 65 := by
  have h : ∀ w, w < 256 →
      rgbToGrayscale ⟨w, w, w⟩ = (if w ∈ darkenedGrays then w - 1 else w)
        ∧ (rgbToGrayscale ⟨w, w, w⟩ = w ∨ rgbToGrayscale ⟨w, w, w⟩ + 1 = w) := by
    decide
  exact ⟨(h v hv).1, (h v hv).2, rfl⟩

theorem rgbToGrayscale_gray_levels_witness :
    rgbToGrayscale ⟨255, 255, 255⟩ = (if 255 ∈ darkenedGrays then 255 - 1 else 255)
      ∧ (rgbToGrayscale ⟨255, 255, 255⟩ = 255 ∨ rgbToGrayscale ⟨255, 255, 255⟩ + 1 = 255)
      ∧ darkenedGrays.length = 65 :=
  rgbToGrayscale_gray_levels 255 (by decide)

/-- C20 fails as stated: the gray pixel (1, 1, 1) is converted to 0. -/
theorem rgbToGrayscale_darkens_gray :
    ¬ ∀ v : Nat, v ≤ 255 → rgbToGrayscale ⟨v, v, v⟩ = v := by
  intro h
  have h1 := h 1 (by decide)
  revert h1
  decide
